import Mathlib

/-!
# Verification of the data normalization and aggregation engine

Shallow embedding of the core of the `visualdata` repository:

* `evaluateFormula` (src/src/components/ColumnMapper.jsx, lines 47-110),
* `detectColumnType` (src/src/hooks/useFileParser.js, lines 21-83),
* `parseDate`, `getPeriodKey`, `getPeriodLabel`, `aggregateValues`,
  `parseNumericValue` and the body of `useDataAggregator`
  (the aggregator module bundled in src/src/hooks/useFileParser.js).

Modelling conventions:

* JavaScript numbers are modelled as exact rationals plus the special
  values `Infinity`, `-Infinity` and `NaN` (`JsNum`).  Claims under
  verification never depend on IEEE-754 rounding, only on which of the
  special values appear, on signs and on comparisons of small decimal
  values, so rationals are an adequate model; signed zero is collapsed
  to `0`.
* Cell values (`JsVal`) are numbers, strings, booleans or `null`
  (the XLSX decoder is configured with `defval: null`, `raw: true`,
  `cellDates: false`, so `Date` objects never occur in rows).
* Rows and mapping objects are association lists in property order;
  property lookup takes the first binding.
* The host date library (JS `Date` plus `date-fns`) is external to the
  repository; it is modelled by exact proleptic-Gregorian calendar
  arithmetic on a timeline of milliseconds in a fixed-offset time zone
  (no daylight-saving transitions), with `new Date(ms)` clipping to
  ±8.64e15 ms.  `format` is modelled by canonical zero-padded printing.
* The host arithmetic evaluator (`Function("return (...)")`) applied to
  whitelist-validated strings is modelled by a recursive-descent
  parser/evaluator for `+ - * / ( )`, unary signs and decimal literals,
  exactly the replacement the specification itself prescribes for it.
-/

namespace VisualData

/-- Model of a JavaScript number: an exact rational, a signed infinity
(`inf true` is `+Infinity`), or `NaN`. -/
inductive JsNum where
  | fin (q : ℚ)
  | inf (pos : Bool)
  | nan
deriving DecidableEq, Repr

/-- Model of a JavaScript cell value as produced by the XLSX/CSV
decoder: number, string, boolean or `null` (also standing in for
`undefined`, which behaves identically in every consumer below). -/
inductive JsVal where
  | num (n : JsNum)
  | str (s : String)
  | boolV (b : Bool)
  | nullV
deriving DecidableEq, Repr

/-- JavaScript unary negation on numbers. -/
def jsNeg : JsNum → JsNum
  | .fin q => .fin (-q)
  | .inf p => .inf (!p)
  | .nan => .nan

/-- JavaScript `+` on numbers (`Infinity + -Infinity` is `NaN`). -/
def jsAdd : JsNum → JsNum → JsNum
  | .nan, _ => .nan
  | _, .nan => .nan
  | .inf p, .inf q => if p = q then .inf p else .nan
  | .inf p, .fin _ => .inf p
  | .fin _, .inf q => .inf q
  | .fin a, .fin b => .fin (a + b)

/-- JavaScript `-` on numbers. -/
def jsSub (a b : JsNum) : JsNum := jsAdd a (jsNeg b)

/-- JavaScript `*` on numbers (`0 * Infinity` is `NaN`). -/
def jsMul : JsNum → JsNum → JsNum
  | .nan, _ => .nan
  | _, .nan => .nan
  | .inf p, .inf q => .inf (p = q)
  | .inf p, .fin b => if b = 0 then .nan else .inf (p = decide (0 < b))
  | .fin a, .inf q => if a = 0 then .nan else .inf (q = decide (0 < a))
  | .fin a, .fin b => .fin (a * b)

/-- JavaScript `/` on numbers (division by zero gives a signed
infinity, `0 / 0` gives `NaN`; signed zero is not modelled). -/
def jsDiv : JsNum → JsNum → JsNum
  | .nan, _ => .nan
  | _, .nan => .nan
  | .inf _, .inf _ => .nan
  | .inf p, .fin b => if b < 0 then .inf (!p) else .inf p
  | .fin _, .inf _ => .fin 0
  | .fin a, .fin b =>
      if b = 0 then (if a = 0 then .nan else .inf (decide (0 < a)))
      else .fin (a / b)

/-- JavaScript `Math.min` on two non-`NaN` numbers
(total order `-Infinity < finite < +Infinity`). -/
def jsLe : JsNum → JsNum → Bool
  | .nan, _ => false
  | _, .nan => false
  | .inf false, _ => true
  | _, .inf true => true
  | .inf true, _ => false
  | _, .inf false => false
  | .fin a, .fin b => decide (a ≤ b)

/-- Minimum of two `JsNum`s, propagating `NaN` like `Math.min`. -/
def jsMin (a b : JsNum) : JsNum :=
  if a = .nan ∨ b = .nan then .nan else if jsLe a b then a else b

/-- Maximum of two `JsNum`s, propagating `NaN` like `Math.max`. -/
def jsMax (a b : JsNum) : JsNum :=
  if a = .nan ∨ b = .nan then .nan else if jsLe a b then b else a

/-- Characters matched by the JavaScript regular-expression class
`\s` (WhiteSpace and LineTerminator), which is also the set removed by
`String.prototype.trim`. -/
def isJsSpace (c : Char) : Bool :=
  c = ' ' ∨ c = '\t' ∨ c = '\n' ∨ c = '\r' ∨ c.toNat = 11 ∨ c.toNat = 12 ∨
  c.toNat = 0xa0 ∨ c.toNat = 0x1680 ∨ (0x2000 ≤ c.toNat ∧ c.toNat ≤ 0x200a) ∨
  c.toNat = 0x2028 ∨ c.toNat = 0x2029 ∨ c.toNat = 0x202f ∨ c.toNat = 0x205f ∨
  c.toNat = 0x3000 ∨ c.toNat = 0xfeff

/-- Decimal digit test (`\d` in a JavaScript regular expression). -/
def isDigitChar (c : Char) : Bool := 48 ≤ c.toNat ∧ c.toNat ≤ 57

/-- Numeric value of a decimal digit character. -/
def digitVal (c : Char) : ℕ := c.toNat - 48

/-- JavaScript `String.prototype.trim`. -/
def trimJs (cs : List Char) : List Char :=
  ((cs.dropWhile isJsSpace).reverse.dropWhile isJsSpace).reverse

/-- Value of a list of decimal digit characters (most significant
first). -/
def digitsVal (cs : List Char) : ℕ :=
  cs.foldl (fun acc c => 10 * acc + digitVal c) 0

/-- Exponent applied to a rational: `10 ^ e` with `e : ℤ`. -/
def pow10 (e : ℤ) : ℚ := (10 : ℚ) ^ e

/-- Longest leading run of decimal digits, and the rest. -/
def spanDigits (cs : List Char) : List Char × List Char :=
  (cs.takeWhile isDigitChar, cs.dropWhile isDigitChar)

/-- Model of JavaScript `parseFloat` on an exploded string: skip
leading whitespace, read an optional sign, then either an `Infinity`
literal or the longest decimal-literal prefix
(`digits [. digits] [e[±]digits]` or `. digits [e[±]digits]`); if no
digits can be read the result is `NaN`.  The numeric value is kept
exact instead of being rounded to a double. -/
def parseFloatChars (cs : List Char) : JsNum :=
  let cs1 := cs.dropWhile isJsSpace
  let sign : Bool := cs1.head? ≠ some '-'
  let cs2 := if cs1.head? = some '-' ∨ cs1.head? = some '+' then cs1.tail else cs1
  if ['I','n','f','i','n','i','t','y'].isPrefixOf cs2 then .inf sign
  else
    let (ip, r1) := spanDigits cs2
    let (fp, r2) :=
      match r1 with
      | '.' :: rest => spanDigits rest
      | _ => ([], r1)
    if ip = [] ∧ fp = [] then .nan
    else
      let mant : ℚ := (digitsVal ip : ℚ) + (digitsVal fp : ℚ) / pow10 fp.length
      let expPart : ℤ :=
        match r2 with
        | 'e' :: rest => parseExp rest
        | 'E' :: rest => parseExp rest
        | _ => 0
      let v := mant * pow10 expPart
      .fin (if sign then v else -v)
where
  /-- Exponent part: optional sign then digits; an exponent marker not
  followed by a digit is not part of the literal (`parseFloat "1e"`
  is `1`). -/
  parseExp (rest : List Char) : ℤ :=
    let esign : Bool := rest.head? ≠ some '-'
    let rest2 := if rest.head? = some '-' ∨ rest.head? = some '+' then rest.tail else rest
    let (ed, _) := spanDigits rest2
    if ed = [] then 0 else (if esign then (digitsVal ed : ℤ) else -(digitsVal ed : ℤ))

/-- JavaScript `parseFloat` on a string. -/
def parseFloatStr (s : String) : JsNum := parseFloatChars s.data

/-- Little-endian decimal digits with explicit fuel (kernel-reducible
version of `Nat.digits 10`). -/
def natDigitsAux : ℕ → ℕ → List ℕ
  | _, 0 => []
  | 0, _ + 1 => []
  | fuel + 1, n + 1 => (n + 1) % 10 :: natDigitsAux fuel ((n + 1) / 10)

/-- Little-endian decimal digits of a natural number. -/
def natDigits (n : ℕ) : List ℕ := natDigitsAux n n

/-- Decimal-digit rendering of a natural number (most significant digit
first; `0` renders as `"0"`). -/
def natRepr (n : ℕ) : List Char :=
  if n = 0 then ['0'] else ((natDigits n).map Nat.digitChar).reverse

/-- Zero-padded decimal rendering to a minimum width. -/
def padNat (w n : ℕ) : List Char :=
  List.replicate (w - (natRepr n).length) '0' ++ natRepr n

/-- Decimal rendering of an integer with a leading sign when
negative. -/
def intRepr (z : ℤ) : List Char :=
  if z < 0 then '-' :: natRepr z.natAbs else natRepr z.natAbs

/-- Smallest exponent `k ≤ 400` with `d ∣ 10 ^ k`, if any.  Every
number produced by decimal parsing has such an exponent. -/
def decExp (d : ℕ) : Option ℕ := (List.range 401).find? (fun k => d ∣ 10 ^ k)

/-- Positional decimal rendering of a non-negative rational whose
denominator divides a power of ten: integer digits, then `.` and the
fraction digits (minimal, so without trailing zeros), omitting the
point for integers.  This models `Number.prototype.toString` on the
values the formula evaluator substitutes; JavaScript switches to
exponential notation for magnitudes outside `[1e-6, 1e21)`, which only
makes the whitelist below strictly more restrictive there. -/
def posRatRepr (q : ℚ) : List Char :=
  match decExp q.den with
  | none => natRepr q.num.natAbs ++ '/' :: natRepr q.den
  | some 0 => natRepr q.num.natAbs
  | some k =>
      let scaled := q.num.natAbs * (10 ^ k / q.den)
      let digits := padNat (k + 1) scaled
      digits.take (digits.length - k) ++ '.' :: digits.drop (digits.length - k)

/-- Model of JavaScript number-to-string conversion. -/
def numToString : JsNum → String
  | .nan => "NaN"
  | .inf true => "Infinity"
  | .inf false => "-Infinity"
  | .fin q => String.mk (if q < 0 then '-' :: posRatRepr (-q) else posRatRepr q)

/-- String-conversion of a cell value (JavaScript `String(value)`). -/
def jsValToString : JsVal → String
  | .num n => numToString n
  | .str s => s
  | .boolV true => "true"
  | .boolV false => "false"
  | .nullV => "null"

/-- JavaScript truthiness test on a cell value (`!value` is `true`
exactly on `null`, `undefined`, `false`, `0`, `NaN` and `""`). -/
def jsTruthy : JsVal → Bool
  | .nullV => false
  | .boolV b => b
  | .num (.fin q) => decide (q ≠ 0)
  | .num .nan => false
  | .num (.inf _) => true
  | .str s => decide (s ≠ "")

/-! ## Calendar arithmetic

The host calendar (JS `Date` plus `date-fns`, in a fixed-offset zone)
is modelled on a millisecond timeline.  `dBY y` is the number of days
from 0000-01-01 to `y`-01-01 in the proleptic Gregorian calendar, using
floor divisions so that the formula is exact for negative years too. -/

/-- Days from 0000-01-01 to `y`-01-01 (proleptic Gregorian). -/
def dBY (y : ℤ) : ℤ := 365 * y + (y + 3) / 4 - (y + 99) / 100 + (y + 399) / 400

/-- One when `y` is a Gregorian leap year, zero otherwise. -/
def leapDay (y : ℤ) : ℤ :=
  if (y % 4 = 0 ∧ ¬ y % 100 = 0) ∨ y % 400 = 0 then 1 else 0

/-- Length of month `m` of year `y`. -/
def daysInMonth (y m : ℤ) : ℤ :=
  if m = 2 then 28 + leapDay y
  else if m = 4 ∨ m = 6 ∨ m = 9 ∨ m = 11 then 30 else 31

/-- Days from `y`-01-01 to `y`-`m`-01. -/
def dBM (y m : ℤ) : ℤ :=
  (if m ≤ 1 then 0 else if m = 2 then 31 else if m = 3 then 59
   else if m = 4 then 90 else if m = 5 then 120 else if m = 6 then 151
   else if m = 7 then 181 else if m = 8 then 212 else if m = 9 then 243
   else if m = 10 then 273 else if m = 11 then 304 else 334)
  + (if 3 ≤ m then leapDay y else 0)

/-- Days from the Unix epoch 1970-01-01 to `y`-`m`-`d` (milliseconds
divided by `86400000` give this day count). -/
def daysFromCivil (y m d : ℤ) : ℤ := dBY y + dBM y m + (d - 1) - 719528

/-- Year containing day `z` of the 0000-01-01-based timeline: a
closed-form approximation followed by a one-step correction. -/
def yearOfDays (z : ℤ) : ℤ :=
  if z < dBY ((400 * z + 591) / 146097) then (400 * z + 591) / 146097 - 1
  else (400 * z + 591) / 146097

/-- Calendar date: year, month (1-12) and day of month (1-31). -/
structure Civil where
  year : ℤ
  month : ℤ
  day : ℤ
deriving DecidableEq, Repr

/-- Month/day table lookup: calendar date of year `y` at day-of-year
`doy` (zero-based), with leap correction `L`. -/
def civilParts (y doy L : ℤ) : Civil :=
  if doy < 31 then ⟨y, 1, doy + 1⟩
  else if doy < 59 + L then ⟨y, 2, doy - 31 + 1⟩
  else if doy < 90 + L then ⟨y, 3, doy - (59 + L) + 1⟩
  else if doy < 120 + L then ⟨y, 4, doy - (90 + L) + 1⟩
  else if doy < 151 + L then ⟨y, 5, doy - (120 + L) + 1⟩
  else if doy < 181 + L then ⟨y, 6, doy - (151 + L) + 1⟩
  else if doy < 212 + L then ⟨y, 7, doy - (181 + L) + 1⟩
  else if doy < 243 + L then ⟨y, 8, doy - (212 + L) + 1⟩
  else if doy < 273 + L then ⟨y, 9, doy - (243 + L) + 1⟩
  else if doy < 304 + L then ⟨y, 10, doy - (273 + L) + 1⟩
  else if doy < 334 + L then ⟨y, 11, doy - (304 + L) + 1⟩
  else ⟨y, 12, doy - (334 + L) + 1⟩

/-- Calendar date of day `z` counted from the Unix epoch 1970-01-01
(the inverse of `daysFromCivil`). -/
def civilFromDays (day : ℤ) : Civil :=
  civilParts (yearOfDays (day + 719528))
    (day + 719528 - dBY (yearOfDays (day + 719528)))
    (leapDay (yearOfDays (day + 719528)))

/-- Milliseconds per day. -/
def dayMs : ℤ := 86400000

/-- Day number (from the Unix epoch) containing a timestamp, flooring
like local midnight in the fixed-offset model. -/
def dayOfTs (ts : ℤ) : ℤ := ts / 86400000

/-- Calendar date containing a timestamp. -/
def civilOfTs (ts : ℤ) : Civil := civilFromDays (dayOfTs ts)

/-- Truncation of a rational toward zero (JavaScript `ToInteger`, used
by `new Date(ms)` on a non-integral time value). -/
def ratTrunc (q : ℚ) : ℤ := if q < 0 then -⌊-q⌋ else ⌊q⌋

/-- Milliseconds of the spreadsheet epoch `new Date(1899, 11, 30)`
(local midnight of 1899-12-30 in the fixed-offset model). -/
def excelEpochMs : ℤ := 86400000 * daysFromCivil 1899 12 30

/-- Strict ISO `YYYY-MM-DD` shape: four digits, dash, two digits,
dash, two digits. -/
def isoShape? (cs : List Char) : Option (ℤ × ℤ × ℤ) :=
  match cs with
  | [a, b, c, d, s1, e, f, s2, g, h] =>
      if s1 = '-' ∧ s2 = '-' ∧ [a, b, c, d, e, f, g, h].all isDigitChar then
        some ((digitsVal [a, b, c, d] : ℤ), (digitsVal [e, f] : ℤ), (digitsVal [g, h] : ℤ))
      else none
  | _ => none

/-- Local-midnight timestamp for a calendar date, provided the month
and day are in range (an invalid combination gives an invalid date). -/
def midnightOf (y m d : ℤ) : Option ℤ :=
  if 1 ≤ m ∧ m ≤ 12 ∧ 1 ≤ d ∧ d ≤ daysInMonth y m then
    some (86400000 * daysFromCivil y m d)
  else none

/-- Model of the string branch of `parseDate`: `parseISO` is tried
first (strict ISO; modelled for the `YYYY-MM-DD` date-only shape,
which is the only ISO shape the claims exercise), and otherwise the
source delegates the shapes matched by its `MM/DD/YYYY`, `YYYY-M-D`
and `M-D-YYYY` regular expressions to host `new Date(string)` parsing,
modelled as month/day/year for one-or-two-digit first components and
year/month/day for a four-digit first component, valid dates only. -/
def parseDateString (s : String) : Option ℤ :=
  match isoShape? s.data with
  | some (y, m, d) => midnightOf y m d
  | none =>
      let (g1, r1) := spanDigits s.data
      match r1 with
      | sep :: rest =>
          if sep = '/' ∨ sep = '-' then
            let (g2, r2) := spanDigits rest
            match r2 with
            | sep2 :: rest2 =>
                if sep2 = sep then
                  let (g3, r3) := spanDigits rest2
                  if r3 = [] then
                    if 1 ≤ g1.length ∧ g1.length ≤ 2 ∧ 1 ≤ g2.length ∧ g2.length ≤ 2 ∧
                        g3.length = 4 then
                      midnightOf (digitsVal g3) (digitsVal g1) (digitsVal g2)
                    else if g1.length = 4 ∧ 1 ≤ g2.length ∧ g2.length ≤ 2 ∧
                        1 ≤ g3.length ∧ g3.length ≤ 2 then
                      midnightOf (digitsVal g1) (digitsVal g2) (digitsVal g3)
                    else none
                  else none
                else none
            | [] => none
          else none
      | [] => none

/-- Model of `parseDate` (useDataAggregator): falsy values give
`null`; a number is a spreadsheet serial converted from the epoch
1899-12-30 by millisecond arithmetic (with the `new Date` clip to
±8.64e15 ms); a string goes through ISO-then-fallback parsing;
any other value reaches the final `return null`. -/
def parseDate (v : JsVal) : Option ℤ :=
  if jsTruthy v = false then none
  else
    match v with
    | .num (.fin q) =>
        let t := ratTrunc (excelEpochMs + q * 86400000)
        if t.natAbs ≤ 8640000000000000 then some t else none
    | .num _ => none
    | .str s => parseDateString s
    | .boolV _ => none
    | .nullV => none

/-- Characters removed by `value.replace(/[$,€£%]/g, '')` in
`parseNumericValue` (note: the yen sign is not among them). -/
def stripNumSymbols (cs : List Char) : List Char :=
  cs.filter (fun c => ¬(c = '$' ∨ c = ',' ∨ c = '€' ∨ c = '£' ∨ c = '%'))

/-- Model of `parseNumericValue`: a non-`NaN` number passes through, a
string is stripped of `$ , € £ %`, trimmed and given to `parseFloat`
(`NaN` becoming `null`), and every other value gives `null`. -/
def parseNumericValue (v : JsVal) : Option JsNum :=
  match v with
  | .num n => if n = .nan then none else some n
  | .str s =>
      match parseFloatChars (trimJs (stripNumSymbols s.data)) with
      | .nan => none
      | x => some x
  | _ => none

/-! ## Period keys and labels -/

/-- Structured period key.  The source keys its buckets by the strings
`format(startOfDay d, "yyyy-MM-dd")`, `format(startOfMonth d, "yyyy-MM")`
and `"{year}-Q{quarter}"`; those renderings are canonical (injective),
so grouping by the structured key below is the same grouping, and
`pkeyString` recovers the exact string. -/
inductive PKey where
  | day (y m d : ℤ)
  | month (y m : ℤ)
  | quarter (y q : ℤ)
deriving DecidableEq, Repr

/-- Quarter containing a month (`getQuarter`): `1` for January-March
through `4` for October-December. -/
def quarterIndex (m : ℤ) : ℤ := (m - 1) / 3 + 1

/-- Day number of the first day of a quarter. -/
def qStartDays (y q : ℤ) : ℤ := daysFromCivil y (3 * q - 2) 1

/-- Day number of the first day after a quarter. -/
def qEndDays (y q : ℤ) : ℤ :=
  if q = 4 then daysFromCivil (y + 1) 1 1 else daysFromCivil y (3 * q + 1) 1

/-- Model of `getPeriodKey`: the calendar components of the row's
timestamp at the requested granularity, any unrecognized granularity
falling back to the daily key exactly like the `switch` default. -/
def getPeriodKey (ts : ℤ) (granularity : String) : PKey :=
  if granularity = "daily" then .day (civilOfTs ts).year (civilOfTs ts).month (civilOfTs ts).day
  else if granularity = "monthly" then .month (civilOfTs ts).year (civilOfTs ts).month
  else if granularity = "quarterly" then
    .quarter (civilOfTs ts).year (quarterIndex (civilOfTs ts).month)
  else .day (civilOfTs ts).year (civilOfTs ts).month (civilOfTs ts).day

/-- Four-digit zero-padded year with a leading sign when negative
(canonical model of the `yyyy` format token). -/
def pad4Year (y : ℤ) : List Char :=
  if y < 0 then '-' :: padNat 4 y.natAbs else padNat 4 y.natAbs

/-- String rendering of a period key, exactly the string the source
stores in `periodKey`. -/
def pkeyString : PKey → String
  | .day y m d => String.mk (pad4Year y ++ '-' :: padNat 2 m.natAbs ++ '-' :: padNat 2 d.natAbs)
  | .month y m => String.mk (pad4Year y ++ '-' :: padNat 2 m.natAbs)
  | .quarter y q => String.mk (intRepr y ++ '-' :: 'Q' :: intRepr q)

/-- Month abbreviation used by the `MMM` format token. -/
def monthAbbrev (m : ℤ) : String :=
  if m = 1 then "Jan" else if m = 2 then "Feb" else if m = 3 then "Mar"
  else if m = 4 then "Apr" else if m = 5 then "May" else if m = 6 then "Jun"
  else if m = 7 then "Jul" else if m = 8 then "Aug" else if m = 9 then "Sep"
  else if m = 10 then "Oct" else if m = 11 then "Nov" else if m = 12 then "Dec" else ""

/-- Model of `getPeriodLabel`: re-renders the period key as a display
label (`"MMM d, yyyy"`, `"MMM yyyy"`, quarter key with the dash
replaced by a space); an unrecognized granularity returns the key
itself like the `switch` default. -/
def getPeriodLabel (k : PKey) (granularity : String) : String :=
  if granularity = "daily" then
    match k with
    | .day y m d => monthAbbrev m ++ " " ++ String.mk (natRepr d.natAbs) ++ ", " ++
        String.mk (pad4Year y)
    | _ => pkeyString k
  else if granularity = "monthly" then
    match k with
    | .month y m => monthAbbrev m ++ " " ++ String.mk (pad4Year y)
    | _ => pkeyString k
  else if granularity = "quarterly" then
    match k with
    | .quarter y q => String.mk (intRepr y ++ ' ' :: 'Q' :: intRepr q)
    | _ => pkeyString k
  else pkeyString k

/-- Start-of-bucket timestamp for the bucket containing `ts` at a
granularity (`startOfDay`, `startOfMonth`, `startOfQuarter`); this is
the "bucket start date" of the data model. -/
def bucketStart (granularity : String) (ts : ℤ) : ℤ :=
  if granularity = "monthly" then
    86400000 * daysFromCivil (civilOfTs ts).year (civilOfTs ts).month 1
  else if granularity = "quarterly" then
    86400000 * qStartDays (civilOfTs ts).year (quarterIndex (civilOfTs ts).month)
  else 86400000 * dayOfTs ts

/-! ## Column type detection (`detectColumnType`, useFileParser.js) -/

/-- Currency glyph character (`[$€£¥]`). -/
def isCurrencyChar (c : Char) : Bool := c = '$' ∨ c = '€' ∨ c = '£' ∨ c = '¥'

/-- Leading or trailing currency glyph (`/^[$€£¥]/` or `/[$€£¥]$/`). -/
def currencyGlyph (cs : List Char) : Bool :=
  (match cs.head? with
   | some c => isCurrencyChar c
   | none => false) ||
  (match cs.getLast? with
   | some c => isCurrencyChar c
   | none => false)

/-- Run of one or two digits followed by the given character. -/
def runThen (sep : Char) (r : List Char) (k : List Char → Bool) : Bool :=
  let run := r.takeWhile isDigitChar
  decide (1 ≤ run.length) && decide (run.length ≤ 2) &&
  (match r.dropWhile isDigitChar with
   | c :: r2 => c == sep && k r2
   | [] => false)

/-- Prefix match for `/^\d{4}-\d{1,2}-\d{1,2}/`. -/
def matchIsoLike (cs : List Char) : Bool :=
  (cs.take 4).all isDigitChar && decide (4 ≤ cs.length) &&
  (match cs.drop 4 with
   | '-' :: r => runThen '-' r (fun r2 => decide (1 ≤ (r2.takeWhile isDigitChar).length))
   | _ => false)

/-- Prefix match for `/^\d{1,2}S\d{1,2}S\d{2,4}/` with separator `S`. -/
def matchSepDate (sep : Char) (cs : List Char) : Bool :=
  runThen sep cs (fun r =>
    runThen sep r (fun r2 => decide (2 ≤ (r2.takeWhile isDigitChar).length)))

/-- Alphabetic character (`[A-Za-z]`). -/
def isAsciiAlpha (c : Char) : Bool :=
  (65 ≤ c.toNat ∧ c.toNat ≤ 90) ∨ (97 ≤ c.toNat ∧ c.toNat ≤ 122)

/-- Prefix match for `/^[A-Za-z]{3}\s+\d{1,2},?\s+\d{4}/`
(`"Mon D, YYYY"`). -/
def matchMonthName (cs : List Char) : Bool :=
  (cs.take 3).all isAsciiAlpha && decide (3 ≤ cs.length) &&
  (let r1 := cs.drop 3
   decide (1 ≤ (r1.takeWhile isJsSpace).length) &&
   (let r2 := r1.dropWhile isJsSpace
    let dg := r2.takeWhile isDigitChar
    decide (1 ≤ dg.length) && decide (dg.length ≤ 2) &&
    (let r3 := r2.dropWhile isDigitChar
     let r4 := match r3 with
       | ',' :: rest => rest
       | _ => r3
     decide (1 ≤ (r4.takeWhile isJsSpace).length) &&
     decide (4 ≤ ((r4.dropWhile isJsSpace).takeWhile isDigitChar).length))))

/-- Any of the four textual date patterns of `detectColumnType`. -/
def matchesDatePattern (cs : List Char) : Bool :=
  matchIsoLike cs ∨ matchSepDate '/' cs ∨ matchSepDate '-' cs ∨ matchMonthName cs

/-- Number in the unit interval (`typeof value === 'number' && value >= 0 && value <= 1`;
comparisons with `NaN` and the infinities are false). -/
def isUnitNumber : JsVal → Bool
  | .num (.fin q) => decide (0 ≤ q) && decide (q ≤ 1)
  | _ => false

/-- Number in the plausible spreadsheet-serial range
(`typeof value === 'number' && value > 30000 && value < 50000`). -/
def isSerialRange : JsVal → Bool
  | .num (.fin q) => decide (30000 < q) && decide (q < 50000)
  | _ => false

/-- Counters accumulated by the classification loop of
`detectColumnType`. -/
structure TypeCounts where
  dateCount : ℕ
  numberCount : ℕ
  percentCount : ℕ
  currencyCount : ℕ
deriving DecidableEq, Repr

/-- One iteration of the classification loop: the `if … continue`
chain (percentage, then currency, then spreadsheet-serial or textual
date, then number) increments at most one counter per value. -/
def countStep (tc : TypeCounts) (v : JsVal) : TypeCounts :=
  let strValue := trimJs (jsValToString v).data
  if strValue.contains '%' || isUnitNumber v then
    { tc with percentCount := tc.percentCount + 1 }
  else if currencyGlyph strValue then
    { tc with currencyCount := tc.currencyCount + 1 }
  else if isSerialRange v then
    { tc with dateCount := tc.dateCount + 1 }
  else if matchesDatePattern strValue then
    { tc with dateCount := tc.dateCount + 1 }
  else if parseFloatChars (stripNumSymbols strValue) ≠ .nan then
    { tc with numberCount := tc.numberCount + 1 }
  else tc

/-- Sample taken by `detectColumnType`: the first twenty values, with
`null` (standing for `null`/`undefined`) and empty strings removed. -/
def sampleOf (values : List JsVal) : List JsVal :=
  (values.take 20).filter (fun v => ¬(v = .nullV ∨ v = .str ""))

/-- Model of `detectColumnType`: classify the sampled values through
the counter loop, then return the first of date, percentage, currency,
number whose count reaches sixty percent of the sample, else `"text"`.
The source compares `count / total >= 0.6` in floating point; for the
sample sizes involved (at most twenty) that comparison coincides with
the exact `5 * count ≥ 3 * total` used here. -/
def detectColumnType (values : List JsVal) : String :=
  let sampleValues := sampleOf values
  if sampleValues = [] then "text"
  else
    let tc := sampleValues.foldl countStep ⟨0, 0, 0, 0⟩
    let total := sampleValues.length
    if 3 * total ≤ 5 * tc.dateCount then "date"
    else if 3 * total ≤ 5 * tc.percentCount then "percentage"
    else if 3 * total ≤ 5 * tc.currencyCount then "currency"
    else if 3 * total ≤ 5 * tc.numberCount then "number"
    else "text"

/-- Category of a single sampled value as described by the
specification: each value belongs to at most one of percentage,
currency, date, number, decided in that priority order. -/
def classifyValue (v : JsVal) : Option String :=
  let strValue := trimJs (jsValToString v).data
  if strValue.contains '%' || isUnitNumber v then
    some "percentage"
  else if currencyGlyph strValue then some "currency"
  else if isSerialRange v then some "date"
  else if matchesDatePattern strValue then some "date"
  else if parseFloatChars (stripNumSymbols strValue) ≠ .nan then some "number"
  else none

/-- Number of sampled values matching a category. -/
def matchCount (sample : List JsVal) (cat : String) : ℕ :=
  (sample.filter (fun v => classifyValue v = some cat)).length

/-- Specification-side restatement of the detector, following the
claim: the detected type is the first of date, percentage, currency,
number whose per-value match ratio over the sampled non-empty values
reaches the sixty-percent threshold, and text when none reaches it or
the sample is empty. -/
def specDetectColumnType (values : List JsVal) : String :=
  let sample := sampleOf values
  if sample = [] then "text"
  else if 3 * sample.length ≤ 5 * matchCount sample "date" then "date"
  else if 3 * sample.length ≤ 5 * matchCount sample "percentage" then "percentage"
  else if 3 * sample.length ≤ 5 * matchCount sample "currency" then "currency"
  else if 3 * sample.length ≤ 5 * matchCount sample "number" then "number"
  else "text"

/-- Valid ISO date string `YYYY-MM-DD` (shape plus calendar
validity). -/
def isIsoDateString (s : String) : Bool :=
  match isoShape? s.data with
  | some (y, m, d) => 1 ≤ m ∧ m ≤ 12 ∧ 1 ≤ d ∧ d ≤ daysInMonth y m
  | none => false

/-! ## Formula evaluator (`evaluateFormula`, ColumnMapper.jsx) -/

/-- Data row: an association list from column name to cell value in
property order (JavaScript object with unique keys). -/
abbrev Row := List (String × JsVal)

/-- One mapping entry as read by the formula evaluator: an object with
optional `column` and `label` properties.  An entry that is a bare
string or `null`/`undefined` exposes neither property through the
`config?.column` / `config?.label` accesses, so it is collapsed to
`none`. -/
structure MEntry where
  column : Option String
  label : Option String
deriving DecidableEq, Repr

/-- Field-to-entry mapping passed to the formula evaluator, in
property order. -/
abbrev CMapping := List (String × Option MEntry)

/-- JavaScript `row.hasOwnProperty(name)`. -/
def rowHas (row : Row) (k : String) : Bool := row.any (fun p => p.1 = k)

/-- JavaScript property read `row[name]`, `undefined` (collapsed to
`null`) when absent. -/
def rowGet (row : Row) (k : String) : JsVal :=
  match row.find? (fun p => p.1 = k) with
  | some p => p.2
  | none => .nullV

/-- JavaScript `parseFloat(value)`: the argument is converted to a
string first. -/
def parseFloatVal (v : JsVal) : JsNum := parseFloatChars (jsValToString v).data

/-- ASCII lower-casing (JavaScript `toLowerCase` restricted to the
ASCII range; no claim involves non-ASCII case folding). -/
def toLowerStr (s : String) : String := String.mk (s.data.map Char.toLower)

/-- Match of one mapping entry against a reference name:
`config?.column === name || config?.label === name || field === name`. -/
def entryMatches (field : String) (entry : Option MEntry) (name : String) : Bool :=
  (match entry with
   | some e => e.column = some name ∨ e.label = some name
   | none => false) || field = name

/-- Column finally read for a matched entry:
`config?.column || columnName` (an absent or empty `column` is falsy). -/
def actualColumnOf (entry : Option MEntry) (name : String) : String :=
  match entry with
  | some e =>
      match e.column with
      | some c => if c = "" then name else c
      | none => name
  | none => name

/-- Resolution of one column reference, lines 59-86 of the source:
(1) if the exact key exists in the row, `parseFloat` of its value
(possibly `NaN`, which is not `null`, so stage 3 is skipped);
(2) otherwise the first case-insensitive key match, likewise;
(3) only when no key matched at all, the first mapping entry whose
column, label or field equals the reference, reading that entry's
actual column when the row has it; `none` models `value === null`. -/
def resolveRef (row : Row) (cm : CMapping) (name : String) : Option JsNum :=
  if rowHas row name then some (parseFloatVal (rowGet row name))
  else
    match (row.map Prod.fst).find? (fun k => toLowerStr k = toLowerStr name) with
    | some k => some (parseFloatVal (rowGet row k))
    | none =>
        match cm.find? (fun e => entryMatches e.1 e.2 name) with
        | some (_, entry) =>
            let actual := actualColumnOf entry name
            if rowHas row actual then some (parseFloatVal (rowGet row actual)) else none
        | none => none

/-- Scanner for the matches of `/\{([^}]+)\}/g`: each match is a
brace-delimited run of one or more non-`}` characters; an unclosed `{`
ends the scan (the dropped-to `}` is missing), an immediately closed
`{}` is skipped (the regex needs one or more content characters).
When a `{` is open, the run up to the closing `}` is the content and
the scan resumes after that `}` (dropping it with `drop 1`).
Fuel-based recursion; each step consumes at least one character, so a
fuel of `length + 1` always suffices (`findRefsAux_fuel`). -/
def findRefsAux : ℕ → List Char → List (List Char)
  | 0, _ => []
  | _ + 1, [] => []
  | fuel + 1, c :: rest =>
      if c = '{' then
        if rest.dropWhile (fun c => c ≠ '}') = [] then []
        else if rest.takeWhile (fun c => c ≠ '}') = [] then findRefsAux fuel rest
        else rest.takeWhile (fun c => c ≠ '}') ::
          findRefsAux fuel ((rest.dropWhile (fun c => c ≠ '}')).drop 1)
      else findRefsAux fuel rest

/-- Contents of the matches of `/\{([^}]+)\}/g`, in order. -/
def findRefs (cs : List Char) : List (List Char) := findRefsAux (cs.length + 1) cs

/-- JavaScript `expression.split(ref).join(str)`: replace every
occurrence of `ref` by `str`. -/
def replaceAll (s ref str : String) : String :=
  String.intercalate str (s.splitOn ref)

/-- The reference-substitution loop of `evaluateFormula`: resolve each
reference in order, abort with `null` when a resolved value is missing
or `NaN`, otherwise replace all occurrences of the braced reference
with the decimal rendering of its value. -/
def substituteRefs (row : Row) (cm : CMapping) :
    List (List Char) → String → Option String
  | [], expr => some expr
  | content :: rest, expr =>
      match resolveRef row cm (String.mk (trimJs content)) with
      | none => none
      | some .nan => none
      | some v =>
          substituteRefs row cm rest
            (replaceAll expr (String.mk ('{' :: content ++ ['}'])) (numToString v))

/-- Expression reaching the whitelist test: `none` when the formula is
falsy (empty) or some reference failed to resolve. -/
def rawSubstitution (formula : String) (row : Row) (cm : CMapping) : Option String :=
  if formula = "" then none
  else substituteRefs row cm (findRefs formula.data) formula

/-- Character class of the validation regular expression
`/^[\d\s+\-*/().]+$/`. -/
def whitelistChar (c : Char) : Bool :=
  isDigitChar c ∨ isJsSpace c = true ∨ c = '+' ∨ c = '-' ∨ c = '*' ∨ c = '/' ∨
  c = '(' ∨ c = ')' ∨ c = '.'

/-- Whitelist test: at least one character, all from the class. -/
def whitelistOk (s : String) : Bool :=
  decide (s.data ≠ []) && s.data.all whitelistChar

/-- Token of the arithmetic sub-language executed after validation. -/
inductive Tok where
  | num (v : ℚ)
  | plus
  | minus
  | star
  | slash
  | lparen
  | rparen
deriving DecidableEq, Repr

/-- Tokenizer for the whitelisted arithmetic strings: whitespace is
skipped, the four operators and parentheses are single tokens, and a
numeric literal is `digits [. digits]`, `. digits` or `digits .`; a
bare `.` (or any character outside the whitelist) is a syntax error.
Fuel-based recursion; the fuel `length + 1` always suffices since each
step consumes at least one character. -/
def tokenizeAux : ℕ → List Char → Option (List Tok)
  | 0, _ => none
  | _ + 1, [] => some []
  | fuel + 1, c :: rest =>
      if isJsSpace c then tokenizeAux fuel rest
      else if c = '+' then (tokenizeAux fuel rest).map (Tok.plus :: ·)
      else if c = '-' then (tokenizeAux fuel rest).map (Tok.minus :: ·)
      else if c = '*' then (tokenizeAux fuel rest).map (Tok.star :: ·)
      else if c = '/' then (tokenizeAux fuel rest).map (Tok.slash :: ·)
      else if c = '(' then (tokenizeAux fuel rest).map (Tok.lparen :: ·)
      else if c = ')' then (tokenizeAux fuel rest).map (Tok.rparen :: ·)
      else if isDigitChar c ∨ c = '.' then
        let (ip, r1) := spanDigits (c :: rest)
        let (fp, r2) :=
          match r1 with
          | '.' :: r => spanDigits r
          | _ => ([], r1)
        if ip = [] ∧ fp = [] then none
        else
          (tokenizeAux fuel r2).map
            (Tok.num ((digitsVal ip : ℚ) + (digitsVal fp : ℚ) / pow10 fp.length) :: ·)
      else none

/-- Tokenizer entry point. -/
def tokenize (cs : List Char) : Option (List Tok) := tokenizeAux (cs.length + 1) cs

/-- Recursive-descent evaluator for the arithmetic sub-language
(additive over multiplicative over unary-signed primaries), the model
of the host evaluation of a whitelist-validated expression; returns
the value and the unconsumed tokens, `none` on a syntax error.
Fuel-based recursion. -/
def parseAddT : ℕ → List Tok → Option (JsNum × List Tok)
  | 0, _ => none
  | fuel + 1, ts => do
      let (v, r) ← parseMulT fuel ts
      parseAddLoop fuel v r
where
  /-- Chain of `+`/`-` at the additive level. -/
  parseAddLoop : ℕ → JsNum → List Tok → Option (JsNum × List Tok)
    | 0, _, _ => none
    | fuel + 1, acc, .plus :: r => do
        let (v, r2) ← parseMulT fuel r
        parseAddLoop fuel (jsAdd acc v) r2
    | fuel + 1, acc, .minus :: r => do
        let (v, r2) ← parseMulT fuel r
        parseAddLoop fuel (jsSub acc v) r2
    | _ + 1, acc, r => some (acc, r)
  /-- Multiplicative level. -/
  parseMulT : ℕ → List Tok → Option (JsNum × List Tok)
    | 0, _ => none
    | fuel + 1, ts => do
        let (v, r) ← parseUnaryT fuel ts
        parseMulLoop fuel v r
  /-- Chain of `*`/`/` at the multiplicative level. -/
  parseMulLoop : ℕ → JsNum → List Tok → Option (JsNum × List Tok)
    | 0, _, _ => none
    | fuel + 1, acc, .star :: r => do
        let (v, r2) ← parseUnaryT fuel r
        parseMulLoop fuel (jsMul acc v) r2
    | fuel + 1, acc, .slash :: r => do
        let (v, r2) ← parseUnaryT fuel r
        parseMulLoop fuel (jsDiv acc v) r2
    | _ + 1, acc, r => some (acc, r)
  /-- Unary signs. -/
  parseUnaryT : ℕ → List Tok → Option (JsNum × List Tok)
    | 0, _ => none
    | fuel + 1, .plus :: r => parseUnaryT fuel r
    | fuel + 1, .minus :: r => do
        let (v, r2) ← parseUnaryT fuel r
        some (jsNeg v, r2)
    | fuel + 1, ts => parsePrimT fuel ts
  /-- Primary: numeric literal or parenthesized expression. -/
  parsePrimT : ℕ → List Tok → Option (JsNum × List Tok)
    | 0, _ => none
    | _ + 1, .num v :: r => some (.fin v, r)
    | fuel + 1, .lparen :: r => do
        let (v, r2) ← parseAddT fuel r
        match r2 with
        | .rparen :: r3 => some (v, r3)
        | _ => none
    | _ + 1, _ => none

/-- Model of `Function("use strict"; return (expr))()` on a
whitelist-validated expression: tokenize, parse, require all input
consumed; `none` models a thrown `SyntaxError`. -/
def evalArith (s : String) : Option JsNum :=
  match tokenize s.data with
  | none => none
  | some toks =>
      match parseAddT (4 * toks.length + 4) toks with
      | some (v, []) => some v
      | _ => none

/-- Model of `evaluateFormula` (ColumnMapper.jsx, lines 47-110): an
empty formula is falsy and gives `null`; every brace reference is
resolved and substituted (aborting with `null` on a missing or `NaN`
value); the substituted expression must pass the character whitelist,
and the evaluated result is returned only when it is a finite number,
otherwise `null`. -/
def evaluateFormula (formula : String) (row : Row) (cm : CMapping) : Option JsNum :=
  match rawSubstitution formula row cm with
  | none => none
  | some expr =>
      if whitelistOk expr then
        match evalArith expr with
        | some (.fin q) => some (.fin q)
        | _ => none
      else none

/-! ## Period aggregation (`useDataAggregator`) -/

/-- Metric descriptor as read by the aggregator (only `field` and
`aggregationType` are consulted). -/
structure Metric where
  field : String
  aggregationType : String
deriving DecidableEq, Repr

/-- Aggregator column mapping: business field to column name, in
property order (the aggregator is called with plain strings as
values). -/
abbrev AMap := List (String × String)

/-- Mapped column for a field, `none` when the property is absent or
falsy (the empty string), modelling `columnMapping[f]` under `!` and
`||`. -/
def mapCol (m : AMap) (k : String) : Option String :=
  match m.find? (fun p => p.1 = k) with
  | some p => if p.2 = "" then none else some p.2
  | none => none

/-- Sum of a list of values (`reduce((sum, val) => sum + val, 0)`). -/
def sumJs (l : List JsNum) : JsNum := l.foldl jsAdd (.fin 0)

/-- `Math.min(...values)` (`Infinity` on an empty spread). -/
def minJs : List JsNum → JsNum
  | [] => .inf true
  | x :: xs => xs.foldl jsMin x

/-- `Math.max(...values)` (`-Infinity` on an empty spread). -/
def maxJs : List JsNum → JsNum
  | [] => .inf false
  | x :: xs => xs.foldl jsMax x

/-- Model of `aggregateValues`: an empty or all-`NaN` list reduces to
`0` for every aggregation type; otherwise sum, arithmetic mean, count
of valid values, minimum or maximum of the non-`NaN` values, any
unrecognized type falling back to the sum like the `switch`
default. -/
def aggregateValues (values : List JsNum) (aggregationType : String) : JsNum :=
  if values = [] then .fin 0
  else
    let validValues := values.filter (fun v => ¬ v = .nan)
    if validValues = [] then .fin 0
    else if aggregationType = "sum" then sumJs validValues
    else if aggregationType = "average" then
      jsDiv (sumJs validValues) (.fin (validValues.length : ℚ))
    else if aggregationType = "count" then .fin (validValues.length : ℚ)
    else if aggregationType = "min" then minJs validValues
    else if aggregationType = "max" then maxJs validValues
    else sumJs validValues

/-- One group of the `groupedData` map: the period key, the parsed
date of the first row that opened the bucket, and the rows pushed into
it in encounter order. -/
structure Bucket where
  key : PKey
  date : ℤ
  rows : List Row
deriving Repr

/-- Insertion of one parsed row into the bucket list, preserving
first-seen bucket order (JavaScript `Map` iteration order): an
existing bucket keeps its stored date and receives the row at the end,
a fresh key opens a new bucket at the end. -/
def insertRow (bs : List Bucket) (k : PKey) (ts : ℤ) (row : Row) : List Bucket :=
  match bs with
  | [] => [⟨k, ts, [row]⟩]
  | b :: rest =>
      if b.key = k then ⟨b.key, b.date, b.rows ++ [row]⟩ :: rest
      else b :: insertRow rest k ts row

/-- Grouping pass of the aggregator: parse each row's date cell,
silently dropping unparsable rows, and group by period key. -/
def buildBuckets (rawData : List Row) (dateColumn : String) (granularity : String) :
    List Bucket :=
  rawData.foldl
    (fun bs row =>
      match parseDate (rowGet row dateColumn) with
      | none => bs
      | some ts => insertRow bs (getPeriodKey ts granularity) ts row)
    []

/-- Parsed timestamp/row pairs of a dataset, in encounter order
(rows with unparsable dates dropped). -/
def parsedPairs (rawData : List Row) (dateColumn : String) : List (ℤ × Row) :=
  rawData.filterMap (fun r => (parseDate (rowGet r dateColumn)).map (fun ts => (ts, r)))

/-- Grouping fold over parsed pairs (the loop of the aggregator,
restated over the parsed list). -/
def bucketFold (g : String) (pairs : List (ℤ × Row)) (bs : List Bucket) : List Bucket :=
  pairs.foldl (fun bs p => insertRow bs (getPeriodKey p.1 g) p.1 p.2) bs

/-- Aggregated period row.  The source stores everything in one
JavaScript object `{ periodKey, label, date, rowCount, [field]: … }`;
here the four base properties and the per-metric values (in metric
order) are kept in separate components, which loses nothing — though
note that on the JavaScript object a metric whose `field` is literally
`"periodKey"`, `"label"`, `"date"` or `"rowCount"` would overwrite the
base property. -/
structure AggRow where
  pkey : PKey
  periodKey : String
  label : String
  date : ℤ
  rowCount : ℕ
  values : List (String × JsNum)
deriving Repr

/-- Construction of one aggregated row from a bucket: for each metric,
resolve its column through the mapping (falling back to the field name
itself), numerically parse the column across the bucket's rows,
discard `null`s, and reduce. -/
def aggRowOf (mapping : AMap) (granularity : String) (metrics : List Metric)
    (b : Bucket) : AggRow :=
  { pkey := b.key
    periodKey := pkeyString b.key
    label := getPeriodLabel b.key granularity
    date := b.date
    rowCount := b.rows.length
    values := metrics.map (fun metric =>
      let columnName := (mapCol mapping metric.field).getD metric.field
      let values := b.rows.filterMap (fun row => parseNumericValue (rowGet row columnName))
      (metric.field, aggregateValues values metric.aggregationType)) }

/-- Comparator of the chronological sort
(`(a, b) => a.date.getTime() - b.date.getTime()`). -/
def bucketLe (a b : Bucket) : Bool := decide (a.date ≤ b.date)

/-- Model of the `aggregatedData` computation of `useDataAggregator`:
empty when there are no rows or the mapping has no (truthy) date
column; otherwise group rows by period key, sort the buckets
ascending by their stored date, and reduce every requested metric per
bucket. -/
def aggregate (rawData : List Row) (mapping : AMap) (granularity : String)
    (metrics : List Metric) : List AggRow :=
  match mapCol mapping "date" with
  | none => []
  | some dateColumn =>
      if rawData = [] then []
      else
        (((buildBuckets rawData dateColumn granularity).mergeSort bucketLe).map
          (aggRowOf mapping granularity metrics))

/-! ## Derived views used by the statements -/

/-- Resolved value of a reference as the substitution loop consumes
it: `some` only for a present, non-`NaN` number
(`value === null || isNaN(value)` aborts the formula). -/
def resolveRefChecked (row : Row) (cm : CMapping) (name : String) : Option JsNum :=
  match resolveRef row cm name with
  | none => none
  | some v => if v = .nan then none else some v

/-- Reference resolution as the amended claim words it: the exact key
match is authoritative when the key exists (even when its value does
not parse as a number); otherwise the first case-insensitive key match
is authoritative; only when no row key matches at all is the mapping
consulted, and the first matching entry is authoritative (failing when
its actual column is absent from the row). -/
def specResolveAmended (row : Row) (cm : CMapping) (name : String) : Option JsNum :=
  let ok : JsNum → Option JsNum := fun n => if n = .nan then none else some n
  if rowHas row name then ok (parseFloatVal (rowGet row name))
  else
    match (row.map Prod.fst).find? (fun k => toLowerStr k = toLowerStr name) with
    | some k => ok (parseFloatVal (rowGet row k))
    | none =>
        match cm.find? (fun e => entryMatches e.1 e.2 name) with
        | some (_, entry) =>
            if rowHas row (actualColumnOf entry name) then
              ok (parseFloatVal (rowGet row (actualColumnOf entry name)))
            else none
        | none => none

/-- String that is handed to the arithmetic evaluator, when one is:
the substituted expression after it passes the whitelist. -/
def arithInput (formula : String) (row : Row) (cm : CMapping) : Option String :=
  match rawSubstitution formula row cm with
  | none => none
  | some expr => if whitelistOk expr then some expr else none

/-! # Theorems

## Calendar correctness -/

/-- Leap correction is zero or one. -/
theorem leapDay_cases (y : ℤ) : leapDay y = 0 ∨ leapDay y = 1 := by
  unfold leapDay
  split <;> simp

/-- Incrementing the year adds the length of that year. -/
theorem dBY_succ (y : ℤ) : dBY (y + 1) = dBY y + 365 + leapDay y := by
  unfold dBY leapDay
  split_ifs <;> omega

/-- Day counts of year starts are strictly monotone. -/
theorem dBY_strictMono {y1 y2 : ℤ} (h : y1 < y2) : dBY y1 < dBY y2 := by
  unfold dBY
  omega

/-- The computed year bracket contains the day. -/
theorem yearOfDays_spec (z : ℤ) : dBY (yearOfDays z) ≤ z ∧ z < dBY (yearOfDays z + 1) := by
  rcases lt_or_ge z (dBY ((400 * z + 591) / 146097)) with h | h
  · have hy : yearOfDays z = (400 * z + 591) / 146097 - 1 := by
      simp only [yearOfDays]
      rw [if_pos h]
    rw [hy, show (400 * z + 591) / 146097 - 1 + 1 = (400 * z + 591) / 146097 by ring]
    unfold dBY at h ⊢
    omega
  · have hy : yearOfDays z = (400 * z + 591) / 146097 := by
      simp only [yearOfDays]
      rw [if_neg (not_lt.mpr h)]
    rw [hy]
    unfold dBY at h ⊢
    omega

/-- Day counts of year starts are monotone. -/
theorem dBY_mono {y1 y2 : ℤ} (h : y1 ≤ y2) : dBY y1 ≤ dBY y2 := by
  unfold dBY
  omega

/-- A day determines its year. -/
theorem yearOfDays_uniq {y z : ℤ} (h1 : dBY y ≤ z) (h2 : z < dBY (y + 1)) :
    yearOfDays z = y := by
  obtain ⟨g1, g2⟩ := yearOfDays_spec z
  rcases lt_trichotomy (yearOfDays z) y with h | h | h
  · have hle : dBY (yearOfDays z + 1) ≤ dBY y := dBY_mono (by omega)
    omega
  · exact h
  · have hle : dBY (y + 1) ≤ dBY (yearOfDays z) := dBY_mono (by omega)
    omega


set_option maxHeartbeats 1000000 in
/-- Reconstruction of the day-of-year from the month table. -/
theorem civilParts_recon {y doy L : ℤ} (h0 : 0 ≤ doy) (h1 : doy < 365 + L)
    (hL : L = 0 ∨ L = 1) (hEq : L = leapDay y) :
    dBM y (civilParts y doy L).month + ((civilParts y doy L).day - 1)
      = doy ∧ (civilParts y doy L).year = y := by
  unfold civilParts
  rcases lt_or_ge doy (31) with hc1 | hc1
  · rw [if_pos hc1]
    refine ⟨?_, rfl⟩
    norm_num [dBM] <;> omega
  · rw [if_neg (not_lt.mpr hc1)]
    rcases lt_or_ge doy (59 + L) with hc2 | hc2
    · rw [if_pos hc2]
      refine ⟨?_, rfl⟩
      norm_num [dBM] <;> omega
    · rw [if_neg (not_lt.mpr hc2)]
      rcases lt_or_ge doy (90 + L) with hc3 | hc3
      · rw [if_pos hc3]
        refine ⟨?_, rfl⟩
        norm_num [dBM] <;> omega
      · rw [if_neg (not_lt.mpr hc3)]
        rcases lt_or_ge doy (120 + L) with hc4 | hc4
        · rw [if_pos hc4]
          refine ⟨?_, rfl⟩
          norm_num [dBM] <;> omega
        · rw [if_neg (not_lt.mpr hc4)]
          rcases lt_or_ge doy (151 + L) with hc5 | hc5
          · rw [if_pos hc5]
            refine ⟨?_, rfl⟩
            norm_num [dBM] <;> omega
          · rw [if_neg (not_lt.mpr hc5)]
            rcases lt_or_ge doy (181 + L) with hc6 | hc6
            · rw [if_pos hc6]
              refine ⟨?_, rfl⟩
              norm_num [dBM] <;> omega
            · rw [if_neg (not_lt.mpr hc6)]
              rcases lt_or_ge doy (212 + L) with hc7 | hc7
              · rw [if_pos hc7]
                refine ⟨?_, rfl⟩
                norm_num [dBM] <;> omega
              · rw [if_neg (not_lt.mpr hc7)]
                rcases lt_or_ge doy (243 + L) with hc8 | hc8
                · rw [if_pos hc8]
                  refine ⟨?_, rfl⟩
                  norm_num [dBM] <;> omega
                · rw [if_neg (not_lt.mpr hc8)]
                  rcases lt_or_ge doy (273 + L) with hc9 | hc9
                  · rw [if_pos hc9]
                    refine ⟨?_, rfl⟩
                    norm_num [dBM] <;> omega
                  · rw [if_neg (not_lt.mpr hc9)]
                    rcases lt_or_ge doy (304 + L) with hc10 | hc10
                    · rw [if_pos hc10]
                      refine ⟨?_, rfl⟩
                      norm_num [dBM] <;> omega
                    · rw [if_neg (not_lt.mpr hc10)]
                      rcases lt_or_ge doy (334 + L) with hc11 | hc11
                      · rw [if_pos hc11]
                        refine ⟨?_, rfl⟩
                        norm_num [dBM] <;> omega
                      · rw [if_neg (not_lt.mpr hc11)]
                        refine ⟨?_, rfl⟩
                        norm_num [dBM] <;> omega

set_option maxHeartbeats 1000000 in
/-- The month-table result is a valid calendar date. -/
theorem civilParts_valid {y doy L : ℤ} (h0 : 0 ≤ doy) (h1 : doy < 365 + L)
    (hL : L = 0 ∨ L = 1) (hEq : L = leapDay y) :
    1 ≤ (civilParts y doy L).month ∧ (civilParts y doy L).month ≤ 12 ∧
    1 ≤ (civilParts y doy L).day ∧
    (civilParts y doy L).day ≤ daysInMonth y (civilParts y doy L).month := by
  unfold civilParts
  rcases lt_or_ge doy (31) with hc1 | hc1
  · rw [if_pos hc1]
    norm_num [daysInMonth] <;> omega
  · rw [if_neg (not_lt.mpr hc1)]
    rcases lt_or_ge doy (59 + L) with hc2 | hc2
    · rw [if_pos hc2]
      norm_num [daysInMonth] <;> omega
    · rw [if_neg (not_lt.mpr hc2)]
      rcases lt_or_ge doy (90 + L) with hc3 | hc3
      · rw [if_pos hc3]
        norm_num [daysInMonth] <;> omega
      · rw [if_neg (not_lt.mpr hc3)]
        rcases lt_or_ge doy (120 + L) with hc4 | hc4
        · rw [if_pos hc4]
          norm_num [daysInMonth] <;> omega
        · rw [if_neg (not_lt.mpr hc4)]
          rcases lt_or_ge doy (151 + L) with hc5 | hc5
          · rw [if_pos hc5]
            norm_num [daysInMonth] <;> omega
          · rw [if_neg (not_lt.mpr hc5)]
            rcases lt_or_ge doy (181 + L) with hc6 | hc6
            · rw [if_pos hc6]
              norm_num [daysInMonth] <;> omega
            · rw [if_neg (not_lt.mpr hc6)]
              rcases lt_or_ge doy (212 + L) with hc7 | hc7
              · rw [if_pos hc7]
                norm_num [daysInMonth] <;> omega
              · rw [if_neg (not_lt.mpr hc7)]
                rcases lt_or_ge doy (243 + L) with hc8 | hc8
                · rw [if_pos hc8]
                  norm_num [daysInMonth] <;> omega
                · rw [if_neg (not_lt.mpr hc8)]
                  rcases lt_or_ge doy (273 + L) with hc9 | hc9
                  · rw [if_pos hc9]
                    norm_num [daysInMonth] <;> omega
                  · rw [if_neg (not_lt.mpr hc9)]
                    rcases lt_or_ge doy (304 + L) with hc10 | hc10
                    · rw [if_pos hc10]
                      norm_num [daysInMonth] <;> omega
                    · rw [if_neg (not_lt.mpr hc10)]
                      rcases lt_or_ge doy (334 + L) with hc11 | hc11
                      · rw [if_pos hc11]
                        norm_num [daysInMonth] <;> omega
                      · rw [if_neg (not_lt.mpr hc11)]
                        norm_num [daysInMonth] <;> omega

/-- Unfolding equation for `civilFromDays`. -/
theorem civilFromDays_eq (z : ℤ) :
    civilFromDays z = civilParts (yearOfDays (z + 719528))
      (z + 719528 - dBY (yearOfDays (z + 719528)))
      (leapDay (yearOfDays (z + 719528))) := rfl

/-- Right inverse: reconstructing the day count from the computed
calendar date gives the day back. -/
theorem daysFromCivil_civilFromDays (z : ℤ) :
    daysFromCivil (civilFromDays z).year (civilFromDays z).month (civilFromDays z).day
      = z := by
  obtain ⟨h1, h2⟩ := yearOfDays_spec (z + 719528)
  have hs := dBY_succ (yearOfDays (z + 719528))
  have hL := leapDay_cases (yearOfDays (z + 719528))
  have hr := @civilParts_recon (yearOfDays (z + 719528))
    (z + 719528 - dBY (yearOfDays (z + 719528)))
    (leapDay (yearOfDays (z + 719528))) (by omega) (by omega) hL rfl
  rw [civilFromDays_eq z, daysFromCivil, hr.2]
  omega

/-- Components of a computed calendar date are in range. -/
theorem civilFromDays_valid (z : ℤ) :
    1 ≤ (civilFromDays z).month ∧ (civilFromDays z).month ≤ 12 ∧
    1 ≤ (civilFromDays z).day ∧
    (civilFromDays z).day ≤ daysInMonth (civilFromDays z).year (civilFromDays z).month := by
  obtain ⟨h1, h2⟩ := yearOfDays_spec (z + 719528)
  have hs := dBY_succ (yearOfDays (z + 719528))
  have hL := leapDay_cases (yearOfDays (z + 719528))
  have hr := @civilParts_valid (yearOfDays (z + 719528))
    (z + 719528 - dBY (yearOfDays (z + 719528)))
    (leapDay (yearOfDays (z + 719528))) (by omega) (by omega) hL rfl
  have hy := @civilParts_recon (yearOfDays (z + 719528))
    (z + 719528 - dBY (yearOfDays (z + 719528)))
    (leapDay (yearOfDays (z + 719528))) (by omega) (by omega) hL rfl
  rw [civilFromDays_eq z]
  refine ⟨hr.1, hr.2.1, hr.2.2.1, ?_⟩
  rw [hy.2]
  exact hr.2.2.2


set_option maxHeartbeats 1000000 in
/-- Left-inverse core: the month table recovers a valid month and
day from its day-of-year. -/
theorem civilParts_of_month {y m d L : ℤ} (hm1 : 1 ≤ m) (hm2 : m ≤ 12)
    (hd1 : 1 ≤ d) (hd2 : d ≤ daysInMonth y m) (hEq : L = leapDay y) :
    civilParts y (dBM y m + d - 1) L = ⟨y, m, d⟩ := by
  subst hEq
  have hL := leapDay_cases y
  interval_cases m
  · norm_num [daysInMonth] at hd2
    rw [show dBM y 1 = 0 from by norm_num [dBM]]
    unfold civilParts
    rw [if_pos (by omega)]
    simp only [Civil.mk.injEq]
    refine ⟨trivial, trivial, by omega⟩
  · norm_num [daysInMonth] at hd2
    rw [show dBM y 2 = 31 from by norm_num [dBM]]
    unfold civilParts
    rw [if_neg (by omega)]
    rw [if_pos (by omega)]
    simp only [Civil.mk.injEq]
    refine ⟨trivial, trivial, by omega⟩
  · norm_num [daysInMonth] at hd2
    rw [show dBM y 3 = 59 + leapDay y from by norm_num [dBM]]
    unfold civilParts
    rw [if_neg (by omega)]
    rw [if_neg (by omega)]
    rw [if_pos (by omega)]
    simp only [Civil.mk.injEq]
    refine ⟨trivial, trivial, by omega⟩
  · norm_num [daysInMonth] at hd2
    rw [show dBM y 4 = 90 + leapDay y from by norm_num [dBM]]
    unfold civilParts
    rw [if_neg (by omega)]
    rw [if_neg (by omega)]
    rw [if_neg (by omega)]
    rw [if_pos (by omega)]
    simp only [Civil.mk.injEq]
    refine ⟨trivial, trivial, by omega⟩
  · norm_num [daysInMonth] at hd2
    rw [show dBM y 5 = 120 + leapDay y from by norm_num [dBM]]
    unfold civilParts
    rw [if_neg (by omega)]
    rw [if_neg (by omega)]
    rw [if_neg (by omega)]
    rw [if_neg (by omega)]
    rw [if_pos (by omega)]
    simp only [Civil.mk.injEq]
    refine ⟨trivial, trivial, by omega⟩
  · norm_num [daysInMonth] at hd2
    rw [show dBM y 6 = 151 + leapDay y from by norm_num [dBM]]
    unfold civilParts
    rw [if_neg (by omega)]
    rw [if_neg (by omega)]
    rw [if_neg (by omega)]
    rw [if_neg (by omega)]
    rw [if_neg (by omega)]
    rw [if_pos (by omega)]
    simp only [Civil.mk.injEq]
    refine ⟨trivial, trivial, by omega⟩
  · norm_num [daysInMonth] at hd2
    rw [show dBM y 7 = 181 + leapDay y from by norm_num [dBM]]
    unfold civilParts
    rw [if_neg (by omega)]
    rw [if_neg (by omega)]
    rw [if_neg (by omega)]
    rw [if_neg (by omega)]
    rw [if_neg (by omega)]
    rw [if_neg (by omega)]
    rw [if_pos (by omega)]
    simp only [Civil.mk.injEq]
    refine ⟨trivial, trivial, by omega⟩
  · norm_num [daysInMonth] at hd2
    rw [show dBM y 8 = 212 + leapDay y from by norm_num [dBM]]
    unfold civilParts
    rw [if_neg (by omega)]
    rw [if_neg (by omega)]
    rw [if_neg (by omega)]
    rw [if_neg (by omega)]
    rw [if_neg (by omega)]
    rw [if_neg (by omega)]
    rw [if_neg (by omega)]
    rw [if_pos (by omega)]
    simp only [Civil.mk.injEq]
    refine ⟨trivial, trivial, by omega⟩
  · norm_num [daysInMonth] at hd2
    rw [show dBM y 9 = 243 + leapDay y from by norm_num [dBM]]
    unfold civilParts
    rw [if_neg (by omega)]
    rw [if_neg (by omega)]
    rw [if_neg (by omega)]
    rw [if_neg (by omega)]
    rw [if_neg (by omega)]
    rw [if_neg (by omega)]
    rw [if_neg (by omega)]
    rw [if_neg (by omega)]
    rw [if_pos (by omega)]
    simp only [Civil.mk.injEq]
    refine ⟨trivial, trivial, by omega⟩
  · norm_num [daysInMonth] at hd2
    rw [show dBM y 10 = 273 + leapDay y from by norm_num [dBM]]
    unfold civilParts
    rw [if_neg (by omega)]
    rw [if_neg (by omega)]
    rw [if_neg (by omega)]
    rw [if_neg (by omega)]
    rw [if_neg (by omega)]
    rw [if_neg (by omega)]
    rw [if_neg (by omega)]
    rw [if_neg (by omega)]
    rw [if_neg (by omega)]
    rw [if_pos (by omega)]
    simp only [Civil.mk.injEq]
    refine ⟨trivial, trivial, by omega⟩
  · norm_num [daysInMonth] at hd2
    rw [show dBM y 11 = 304 + leapDay y from by norm_num [dBM]]
    unfold civilParts
    rw [if_neg (by omega)]
    rw [if_neg (by omega)]
    rw [if_neg (by omega)]
    rw [if_neg (by omega)]
    rw [if_neg (by omega)]
    rw [if_neg (by omega)]
    rw [if_neg (by omega)]
    rw [if_neg (by omega)]
    rw [if_neg (by omega)]
    rw [if_neg (by omega)]
    rw [if_pos (by omega)]
    simp only [Civil.mk.injEq]
    refine ⟨trivial, trivial, by omega⟩
  · norm_num [daysInMonth] at hd2
    rw [show dBM y 12 = 334 + leapDay y from by norm_num [dBM]]
    unfold civilParts
    rw [if_neg (by omega)]
    rw [if_neg (by omega)]
    rw [if_neg (by omega)]
    rw [if_neg (by omega)]
    rw [if_neg (by omega)]
    rw [if_neg (by omega)]
    rw [if_neg (by omega)]
    rw [if_neg (by omega)]
    rw [if_neg (by omega)]
    rw [if_neg (by omega)]
    rw [if_neg (by omega)]
    simp only [Civil.mk.injEq]
    refine ⟨trivial, trivial, by omega⟩

/-- Cumulative month offsets are non-negative. -/
theorem dBM_nonneg {y m : ℤ} (hm1 : 1 ≤ m) (hm2 : m ≤ 12) : 0 ≤ dBM y m := by
  have hL := leapDay_cases y
  interval_cases m <;> norm_num [dBM] <;> omega

/-- A month ends within its year. -/
theorem dBM_add_daysInMonth_le {y m : ℤ} (hm1 : 1 ≤ m) (hm2 : m ≤ 12) :
    dBM y m + daysInMonth y m ≤ 365 + leapDay y := by
  have hL := leapDay_cases y
  interval_cases m <;> norm_num [dBM, daysInMonth] <;> omega

/-- Left inverse: converting a valid calendar date to days and back
is the identity. -/
theorem civilFromDays_daysFromCivil {y m d : ℤ} (hm1 : 1 ≤ m) (hm2 : m ≤ 12)
    (hd1 : 1 ≤ d) (hd2 : d ≤ daysInMonth y m) :
    civilFromDays (daysFromCivil y m d) = ⟨y, m, d⟩ := by
  have hL := leapDay_cases y
  have hs := dBY_succ y
  have hz : daysFromCivil y m d + 719528 = dBY y + (dBM y m + d - 1) := by
    unfold daysFromCivil; ring
  have hlb := dBM_nonneg (y := y) hm1 hm2
  have hub := dBM_add_daysInMonth_le (y := y) hm1 hm2
  have hy : yearOfDays (daysFromCivil y m d + 719528) = y := by
    apply yearOfDays_uniq <;> omega
  rw [civilFromDays_eq, hy]
  rw [show daysFromCivil y m d + 719528 - dBY y = dBM y m + d - 1 from by omega]
  exact civilParts_of_month hm1 hm2 hd1 hd2 rfl

/-- Day-of-month shift inside a fixed month. -/
theorem daysFromCivil_shift (y m d : ℤ) :
    daysFromCivil y m d = daysFromCivil y m 1 + (d - 1) := by
  unfold daysFromCivil; ring

/-- Every day lies in the interval of its month. -/
theorem month_interval (z : ℤ) :
    daysFromCivil (civilFromDays z).year (civilFromDays z).month 1 ≤ z ∧
    z < daysFromCivil (civilFromDays z).year (civilFromDays z).month 1
        + daysInMonth (civilFromDays z).year (civilFromDays z).month := by
  have hb := daysFromCivil_civilFromDays z
  have hv := civilFromDays_valid z
  have hsh := daysFromCivil_shift (civilFromDays z).year (civilFromDays z).month
    (civilFromDays z).day
  omega

/-- A day inside the interval of a month belongs to that month. -/
theorem month_uniq {y m z : ℤ} (hm1 : 1 ≤ m) (hm2 : m ≤ 12)
    (hlo : daysFromCivil y m 1 ≤ z)
    (hhi : z < daysFromCivil y m 1 + daysInMonth y m) :
    (civilFromDays z).year = y ∧ (civilFromDays z).month = m := by
  have hsh := daysFromCivil_shift y m (z - daysFromCivil y m 1 + 1)
  have hz : z = daysFromCivil y m (z - daysFromCivil y m 1 + 1) := by omega
  have hr := civilFromDays_daysFromCivil (y := y) (m := m)
    (d := z - daysFromCivil y m 1 + 1) hm1 hm2 (by omega) (by omega)
  rw [hz, hr]
  exact ⟨rfl, rfl⟩

/-- Distinct months of ordered days have strictly ordered month
starts. -/
theorem month_order {z1 z2 : ℤ} (hz : z1 ≤ z2)
    (hne : ¬((civilFromDays z1).year = (civilFromDays z2).year ∧
             (civilFromDays z1).month = (civilFromDays z2).month)) :
    daysFromCivil (civilFromDays z1).year (civilFromDays z1).month 1
      < daysFromCivil (civilFromDays z2).year (civilFromDays z2).month 1 := by
  by_contra hcon
  push_neg at hcon
  have h1 := month_interval z1
  have h2 := month_interval z2
  have hv2 := civilFromDays_valid z2
  have hu := month_uniq (y := (civilFromDays z2).year) (m := (civilFromDays z2).month)
    (z := z1) hv2.1 hv2.2.1 (by omega) (by omega)
  exact hne ⟨hu.1, hu.2⟩

/-- A month interval ends where the next month starts. -/
theorem month_next {y a : ℤ} (h1 : 1 ≤ a) (h2 : a ≤ 11) :
    daysFromCivil y a 1 + daysInMonth y a = daysFromCivil y (a + 1) 1 := by
  have hL := leapDay_cases y
  interval_cases a <;> norm_num [daysFromCivil, dBM, daysInMonth] <;> omega

/-- December ends where January of the next year starts. -/
theorem month_next12 (y : ℤ) :
    daysFromCivil y 12 1 + daysInMonth y 12 = daysFromCivil (y + 1) 1 1 := by
  have hL := leapDay_cases y
  have hs := dBY_succ y
  norm_num [daysFromCivil, dBM, daysInMonth]
  omega

/-- A month interval lies inside the interval of its quarter. -/
theorem qmonth_facts {y m : ℤ} (hm1 : 1 ≤ m) (hm2 : m ≤ 12) :
    qStartDays y (quarterIndex m) ≤ daysFromCivil y m 1 ∧
    daysFromCivil y m 1 + daysInMonth y m ≤ qEndDays y (quarterIndex m) := by
  have hL := leapDay_cases y
  have hs := dBY_succ y
  interval_cases m <;>
    norm_num [qStartDays, qEndDays, quarterIndex, daysFromCivil, dBM, daysInMonth] <;>
    omega

/-- Every day lies in the interval of its quarter. -/
theorem quarter_interval (z : ℤ) :
    qStartDays (civilFromDays z).year (quarterIndex (civilFromDays z).month) ≤ z ∧
    z < qEndDays (civilFromDays z).year (quarterIndex (civilFromDays z).month) := by
  have hv := civilFromDays_valid z
  have hm := month_interval z
  have hq := qmonth_facts (y := (civilFromDays z).year) (m := (civilFromDays z).month)
    hv.1 hv.2.1
  omega

/-- A day inside the interval of a quarter belongs to that quarter. -/
theorem quarter_uniq {y q z : ℤ} (hq1 : 1 ≤ q) (hq2 : q ≤ 4)
    (hlo : qStartDays y q ≤ z) (hhi : z < qEndDays y q) :
    (civilFromDays z).year = y ∧ quarterIndex (civilFromDays z).month = q := by
  interval_cases q
  · norm_num [qStartDays, qEndDays] at hlo hhi
    have hnA := month_next (y := y) (a := 1) (by norm_num) (by norm_num)
    have hnB := month_next (y := y) (a := 2) (by norm_num) (by norm_num)
    have hnC := month_next (y := y) (a := 3) (by norm_num) (by norm_num)
    norm_num at hnA hnB hnC
    rcases lt_or_ge z (daysFromCivil y 2 1) with hA | hA
    · have hu := month_uniq (y := y) (m := 1) (z := z) (by norm_num) (by norm_num)
        (by omega) (by omega)
      exact ⟨hu.1, by rw [hu.2]; decide⟩
    · rcases lt_or_ge z (daysFromCivil y 3 1) with hB | hB
      · have hu := month_uniq (y := y) (m := 2) (z := z) (by norm_num) (by norm_num)
          (by omega) (by omega)
        exact ⟨hu.1, by rw [hu.2]; decide⟩
      · have hu := month_uniq (y := y) (m := 3) (z := z) (by norm_num) (by norm_num)
          (by omega) (by omega)
        exact ⟨hu.1, by rw [hu.2]; decide⟩
  · norm_num [qStartDays, qEndDays] at hlo hhi
    have hnA := month_next (y := y) (a := 4) (by norm_num) (by norm_num)
    have hnB := month_next (y := y) (a := 5) (by norm_num) (by norm_num)
    have hnC := month_next (y := y) (a := 6) (by norm_num) (by norm_num)
    norm_num at hnA hnB hnC
    rcases lt_or_ge z (daysFromCivil y 5 1) with hA | hA
    · have hu := month_uniq (y := y) (m := 4) (z := z) (by norm_num) (by norm_num)
        (by omega) (by omega)
      exact ⟨hu.1, by rw [hu.2]; decide⟩
    · rcases lt_or_ge z (daysFromCivil y 6 1) with hB | hB
      · have hu := month_uniq (y := y) (m := 5) (z := z) (by norm_num) (by norm_num)
          (by omega) (by omega)
        exact ⟨hu.1, by rw [hu.2]; decide⟩
      · have hu := month_uniq (y := y) (m := 6) (z := z) (by norm_num) (by norm_num)
          (by omega) (by omega)
        exact ⟨hu.1, by rw [hu.2]; decide⟩
  · norm_num [qStartDays, qEndDays] at hlo hhi
    have hnA := month_next (y := y) (a := 7) (by norm_num) (by norm_num)
    have hnB := month_next (y := y) (a := 8) (by norm_num) (by norm_num)
    have hnC := month_next (y := y) (a := 9) (by norm_num) (by norm_num)
    norm_num at hnA hnB hnC
    rcases lt_or_ge z (daysFromCivil y 8 1) with hA | hA
    · have hu := month_uniq (y := y) (m := 7) (z := z) (by norm_num) (by norm_num)
        (by omega) (by omega)
      exact ⟨hu.1, by rw [hu.2]; decide⟩
    · rcases lt_or_ge z (daysFromCivil y 9 1) with hB | hB
      · have hu := month_uniq (y := y) (m := 8) (z := z) (by norm_num) (by norm_num)
          (by omega) (by omega)
        exact ⟨hu.1, by rw [hu.2]; decide⟩
      · have hu := month_uniq (y := y) (m := 9) (z := z) (by norm_num) (by norm_num)
          (by omega) (by omega)
        exact ⟨hu.1, by rw [hu.2]; decide⟩
  · norm_num [qStartDays, qEndDays] at hlo hhi
    have hnA := month_next (y := y) (a := 10) (by norm_num) (by norm_num)
    have hnB := month_next (y := y) (a := 11) (by norm_num) (by norm_num)
    have hnC := month_next12 y
    norm_num at hnA hnB
    rcases lt_or_ge z (daysFromCivil y 11 1) with hA | hA
    · have hu := month_uniq (y := y) (m := 10) (z := z) (by norm_num) (by norm_num)
        (by omega) (by omega)
      exact ⟨hu.1, by rw [hu.2]; decide⟩
    · rcases lt_or_ge z (daysFromCivil y 12 1) with hB | hB
      · have hu := month_uniq (y := y) (m := 11) (z := z) (by norm_num) (by norm_num)
          (by omega) (by omega)
        exact ⟨hu.1, by rw [hu.2]; decide⟩
      · have hu := month_uniq (y := y) (m := 12) (z := z) (by norm_num) (by norm_num)
          (by omega) (by omega)
        exact ⟨hu.1, by rw [hu.2]; decide⟩

/-- Distinct quarters of ordered days have strictly ordered quarter
starts. -/
theorem quarter_order {z1 z2 : ℤ} (hz : z1 ≤ z2)
    (hne : ¬((civilFromDays z1).year = (civilFromDays z2).year ∧
             quarterIndex (civilFromDays z1).month = quarterIndex (civilFromDays z2).month)) :
    qStartDays (civilFromDays z1).year (quarterIndex (civilFromDays z1).month)
      < qStartDays (civilFromDays z2).year (quarterIndex (civilFromDays z2).month) := by
  by_contra hcon
  push_neg at hcon
  have h1 := quarter_interval z1
  have h2 := quarter_interval z2
  have hv2 := civilFromDays_valid z2
  have hqb : 1 ≤ quarterIndex (civilFromDays z2).month ∧
      quarterIndex (civilFromDays z2).month ≤ 4 := by
    unfold quarterIndex
    omega
  have hu := quarter_uniq (y := (civilFromDays z2).year)
    (q := quarterIndex (civilFromDays z2).month) (z := z1) hqb.1 hqb.2
    (by omega) (by omega)
  exact hne ⟨hu.1, hu.2⟩

/-- Day numbers are monotone in the timestamp. -/
theorem dayOfTs_mono {ts1 ts2 : ℤ} (h : ts1 ≤ ts2) : dayOfTs ts1 ≤ dayOfTs ts2 :=
  Int.ediv_le_ediv (by norm_num) h

/-- Distinct period keys of ordered timestamps have strictly ordered
bucket starts, for every granularity. -/
theorem bucketStart_lt {g : String} {ts1 ts2 : ℤ} (hts : ts1 ≤ ts2)
    (hne : getPeriodKey ts1 g ≠ getPeriodKey ts2 g) :
    bucketStart g ts1 < bucketStart g ts2 := by
  have hdle : dayOfTs ts1 ≤ dayOfTs ts2 := dayOfTs_mono hts
  by_cases hd : g = "daily"
  · rw [hd] at hne ⊢
    rw [getPeriodKey, getPeriodKey, if_pos rfl, if_pos rfl] at hne
    rw [bucketStart, bucketStart, if_neg (by decide), if_neg (by decide),
      if_neg (by decide), if_neg (by decide)]
    have hdn : dayOfTs ts1 ≠ dayOfTs ts2 := by
      intro he
      exact hne (by rw [civilOfTs, civilOfTs, he])
    omega
  · by_cases hm : g = "monthly"
    · rw [hm] at hne ⊢
      rw [getPeriodKey, getPeriodKey, if_neg (by decide), if_pos rfl,
        if_neg (by decide), if_pos rfl] at hne
      rw [bucketStart, bucketStart, if_pos rfl, if_pos rfl]
      have hmo := @month_order (dayOfTs ts1) (dayOfTs ts2) hdle
        (fun hcon => hne (by rw [civilOfTs, civilOfTs, hcon.1, hcon.2]))
      rw [civilOfTs, civilOfTs]
      omega
    · by_cases hq : g = "quarterly"
      · rw [hq] at hne ⊢
        rw [getPeriodKey, getPeriodKey, if_neg (by decide), if_neg (by decide),
          if_pos rfl, if_neg (by decide), if_neg (by decide), if_pos rfl] at hne
        rw [bucketStart, bucketStart, if_neg (by decide), if_pos rfl,
          if_neg (by decide), if_pos rfl]
        have hqo := @quarter_order (dayOfTs ts1) (dayOfTs ts2) hdle
          (fun hcon => hne (by rw [civilOfTs, civilOfTs, hcon.1, hcon.2]))
        rw [civilOfTs, civilOfTs]
        omega
      · rw [getPeriodKey, getPeriodKey, if_neg hd, if_neg hm, if_neg hq,
          if_neg hd, if_neg hm, if_neg hq] at hne
        rw [bucketStart, bucketStart, if_neg hm, if_neg hq, if_neg hm, if_neg hq]
        have hdn : dayOfTs ts1 ≠ dayOfTs ts2 := by
          intro he
          exact hne (by rw [civilOfTs, civilOfTs, he])
        omega

/-! ## Date parsing (claims C2, C5) -/

/-- Year component of a computed calendar date. -/
theorem civilFromDays_year (d : ℤ) :
    (civilFromDays d).year = yearOfDays (d + 719528) := by
  obtain ⟨h1, h2⟩ := yearOfDays_spec (d + 719528)
  have hs := dBY_succ (yearOfDays (d + 719528))
  have hL := leapDay_cases (yearOfDays (d + 719528))
  rw [civilFromDays_eq]
  exact (civilParts_recon (by omega) (by omega) hL rfl).2

/-- Truncation of an integer rational is that integer. -/
theorem ratTrunc_intCast (a : ℤ) : ratTrunc ((a : ℚ)) = a := by
  unfold ratTrunc
  split_ifs with h
  · rw [show -(a : ℚ) = ((-a : ℤ) : ℚ) from by push_cast; ring, Int.floor_intCast]
    ring
  · rw [Int.floor_intCast]

/-- Evaluation of `parseDate` on a non-zero integer serial number. -/
theorem parseDate_int (n : ℤ) (hn : n ≠ 0) :
    parseDate (.num (.fin (n : ℚ))) =
      if (excelEpochMs + n * 86400000).natAbs ≤ 8640000000000000 then
        some (excelEpochMs + n * 86400000)
      else none := by
  have ht : jsTruthy (.num (.fin (n : ℚ))) = true := by
    simp [jsTruthy]
    exact_mod_cast hn
  rw [parseDate]
  rw [ht]
  simp only [Bool.true_eq_false, if_false]
  have harg : excelEpochMs + (n : ℚ) * 86400000 = ((excelEpochMs + n * 86400000 : ℤ) : ℚ) := by
    push_cast
    ring
  rw [harg, ratTrunc_intCast]


/-- Claim C2 is false as stated: serial value 1 does not map to
1900-01-01; the millisecond arithmetic from the epoch 1899-12-30 lands
on 1899-12-31. -/
theorem claim_C2_counterexample :
    (parseDate (.num (.fin 1))).map civilOfTs ≠ some ⟨1900, 1, 1⟩ ∧
    (parseDate (.num (.fin 1))).map civilOfTs = some ⟨1899, 12, 31⟩ := by
  constructor
  · intro h
    rw [show (parseDate (.num (.fin 1))).map civilOfTs = some ⟨1899, 12, 31⟩ from by
      with_unfolding_all rfl] at h
    simp only [Option.some.injEq, Civil.mk.injEq] at h
    omega
  · with_unfolding_all rfl

/-- Claim C2 (amended): for every spreadsheet serial number in
[30000, 50000], `parseDate` returns a date whose year lies between
1982 and 2036; and serial value 1 yields the date 1899-12-31 (the
epoch 1899-12-30 plus one day of milliseconds). -/
theorem claim_C2 (n : ℤ) (h1 : 30000 ≤ n) (h2 : n ≤ 50000) :
    (∃ ts, parseDate (.num (.fin (n : ℚ))) = some ts ∧
      1982 ≤ (civilOfTs ts).year ∧ (civilOfTs ts).year ≤ 2036) ∧
    (parseDate (.num (.fin 1))).map civilOfTs = some ⟨1899, 12, 31⟩ := by
  constructor
  · refine ⟨excelEpochMs + n * 86400000, ?_, ?_, ?_⟩
    · rw [parseDate_int n (by omega)]
      have hep : excelEpochMs = -2209161600000 := by decide
      rw [if_pos (by omega)]
    · have hdv : dayOfTs (excelEpochMs + n * 86400000) = n - 25569 := by
        have hep : excelEpochMs = -2209161600000 := by decide
        unfold dayOfTs
        omega
      rw [civilOfTs, hdv, civilFromDays_year]
      obtain ⟨g1, g2⟩ := yearOfDays_spec (n - 25569 + 719528)
      have e1 : dBY 1982 = 723911 := by decide
      by_contra hcon
      have hmono : dBY (yearOfDays (n - 25569 + 719528) + 1) ≤ dBY 1982 :=
        dBY_mono (by omega)
      omega
    · have hdv : dayOfTs (excelEpochMs + n * 86400000) = n - 25569 := by
        have hep : excelEpochMs = -2209161600000 := by decide
        unfold dayOfTs
        omega
      rw [civilOfTs, hdv, civilFromDays_year]
      obtain ⟨g1, g2⟩ := yearOfDays_spec (n - 25569 + 719528)
      have e2 : dBY 2037 = 744000 := by decide
      by_contra hcon
      have hmono : dBY 2037 ≤ dBY (yearOfDays (n - 25569 + 719528)) :=
        dBY_mono (by omega)
      omega
  · with_unfolding_all rfl

/-- Witness for claim C2 at the concrete serial 40000. -/
theorem claim_C2_witness :
    (∃ ts, parseDate (.num (.fin ((40000 : ℤ) : ℚ))) = some ts ∧
      1982 ≤ (civilOfTs ts).year ∧ (civilOfTs ts).year ≤ 2036) ∧
    (parseDate (.num (.fin 1))).map civilOfTs = some ⟨1899, 12, 31⟩ :=
  claim_C2 40000 (by norm_num) (by norm_num)

/-! ## Numeric parsing (claim C5) -/

/-- Claim C5 is false as stated on two points: the yen sign is not
among the stripped currency symbols, so `"¥100"` parses to `null`
rather than `100`; and the number arm tests only for `NaN`, so the
non-finite `Infinity` passes through instead of yielding `null`. -/
theorem claim_C5_counterexample :
    parseNumericValue (.str "¥100") = none ∧
    parseNumericValue (.num (.inf true)) = some (.inf true) := by
  constructor
  · with_unfolding_all rfl
  · rfl

/-- Claim C5 (amended): `parseNumericValue` passes every non-`NaN`
number through unchanged (including the infinities); `NaN`, booleans
and `null` give `null`; a string is stripped of `$`, `€`, `£` (but not
`¥`), commas and percent signs, trimmed, and parsed as a float, an
unparsable remainder giving `null`; in particular `"$100"`, `"$250"`
and `"$3,000"` yield 100, 250 and 3000, while `"¥100"` gives `null`. -/
theorem claim_C5 :
    (∀ n : JsNum, n ≠ .nan → parseNumericValue (.num n) = some n) ∧
    parseNumericValue (.num .nan) = none ∧
    (∀ b, parseNumericValue (.boolV b) = none) ∧
    parseNumericValue .nullV = none ∧
    (∀ s, parseFloatChars (trimJs (stripNumSymbols s.data)) = .nan →
      parseNumericValue (.str s) = none) ∧
    (∀ s x, parseFloatChars (trimJs (stripNumSymbols s.data)) = x → x ≠ .nan →
      parseNumericValue (.str s) = some x) ∧
    parseNumericValue (.str "$100") = some (.fin 100) ∧
    parseNumericValue (.str "$250") = some (.fin 250) ∧
    parseNumericValue (.str "$3,000") = some (.fin 3000) ∧
    parseNumericValue (.str "¥100") = none := by
  refine ⟨?_, rfl, ?_, rfl, ?_, ?_, ?_, ?_, ?_, ?_⟩
  · intro n hn
    show (if n = JsNum.nan then none else some n) = some n
    rw [if_neg hn]
  · intro b
    rfl
  · intro s hs
    show (match parseFloatChars (trimJs (stripNumSymbols s.data)) with
      | JsNum.nan => none
      | x => some x) = none
    rw [hs]
  · intro s x hs hx
    show (match parseFloatChars (trimJs (stripNumSymbols s.data)) with
      | JsNum.nan => none
      | x => some x) = some x
    rw [hs]
    cases x with
    | fin q => rfl
    | inf p => rfl
    | nan => exact absurd rfl hx
  · with_unfolding_all rfl
  · with_unfolding_all rfl
  · with_unfolding_all rfl
  · with_unfolding_all rfl

/-- Witness for claim C5 at concrete inputs. -/
theorem claim_C5_witness :
    parseNumericValue (.num (.fin 7)) = some (.fin 7) ∧
    parseNumericValue (.str "45%") = some (.fin 45) :=
  ⟨claim_C5.1 (.fin 7) (by decide),
   claim_C5.2.2.2.2.2.1 "45%" (.fin 45) (by with_unfolding_all rfl) (by decide)⟩

/-! ## Grouping lemmas -/

/-- Key list after an insertion: unchanged for an existing key, the
new key appended otherwise. -/
theorem insertRow_keys (bs : List Bucket) (k : PKey) (ts : ℤ) (row : Row) :
    (insertRow bs k ts row).map Bucket.key =
      if k ∈ bs.map Bucket.key then bs.map Bucket.key
      else bs.map Bucket.key ++ [k] := by
  induction bs with
  | nil => simp [insertRow]
  | cons b rest ih =>
      rw [insertRow]
      by_cases hk : b.key = k
      · rw [if_pos hk]
        simp [hk]
      · rw [if_neg hk]
        simp only [List.map_cons, ih]
        by_cases hmem : k ∈ rest.map Bucket.key
        · rw [if_pos hmem, if_pos (by simp [hmem])]
        · rw [if_neg hmem, if_neg (by simp [hmem, Ne.symm hk])]
          simp

/-- An insertion grows the total row count by exactly one. -/
theorem insertRow_rowsum (bs : List Bucket) (k : PKey) (ts : ℤ) (row : Row) :
    ((insertRow bs k ts row).map (fun b => b.rows.length)).sum =
      ((bs.map (fun b => b.rows.length)).sum) + 1 := by
  induction bs with
  | nil => simp [insertRow]
  | cons b rest ih =>
      rw [insertRow]
      by_cases hk : b.key = k
      · rw [if_pos hk]
        simp
        omega
      · rw [if_neg hk]
        simp only [List.map_cons, List.sum_cons, ih]
        omega

/-- Every bucket after an insertion is an old bucket, possibly with
the row appended, or the fresh singleton bucket. -/
theorem insertRow_mem (bs : List Bucket) (k : PKey) (ts : ℤ) (row : Row)
    (b : Bucket) (hb : b ∈ insertRow bs k ts row) :
    (∃ b0 ∈ bs, b.key = b0.key ∧ b.date = b0.date ∧
      (b.rows = b0.rows ∨ b.rows = b0.rows ++ [row])) ∨
    b = ⟨k, ts, [row]⟩ := by
  induction bs with
  | nil =>
      simp [insertRow] at hb
      right
      exact hb
  | cons b0 rest ih =>
      rw [insertRow] at hb
      by_cases hk : b0.key = k
      · rw [if_pos hk] at hb
        rcases List.mem_cons.mp hb with h | h
        · exact Or.inl ⟨b0, List.mem_cons_self b0 rest, by rw [h], by rw [h], Or.inr (by rw [h])⟩
        · exact Or.inl ⟨b, List.mem_cons_of_mem b0 h, rfl, rfl, Or.inl rfl⟩
      · rw [if_neg hk] at hb
        rcases List.mem_cons.mp hb with h | h
        · exact Or.inl ⟨b0, List.mem_cons_self b0 rest, by rw [h], by rw [h], Or.inl (by rw [h])⟩
        · rcases ih h with ⟨b1, hb1, he⟩ | he
          · exact Or.inl ⟨b1, List.mem_cons_of_mem b0 hb1, he⟩
          · exact Or.inr he

/-- Inserting a fresh key appends a new bucket at the end. -/
theorem insertRow_fresh (bs : List Bucket) (k : PKey) (ts : ℤ) (row : Row)
    (hk : k ∉ bs.map Bucket.key) :
    insertRow bs k ts row = bs ++ [⟨k, ts, [row]⟩] := by
  induction bs with
  | nil => simp [insertRow]
  | cons b rest ih =>
      simp only [List.map_cons, List.mem_cons, not_or] at hk
      rw [insertRow, if_neg (fun h => hk.1 h.symm), ih hk.2]
      simp

/-- Inserting an existing key leaves all keys and dates unchanged. -/
theorem insertRow_stale (bs : List Bucket) (k : PKey) (ts : ℤ) (row : Row)
    (hk : k ∈ bs.map Bucket.key) :
    (insertRow bs k ts row).map (fun b => (b.key, b.date)) =
      bs.map (fun b => (b.key, b.date)) := by
  induction bs with
  | nil => simp at hk
  | cons b rest ih =>
      rw [insertRow]
      by_cases hb : b.key = k
      · rw [if_pos hb]
        simp
      · rw [if_neg hb]
        simp only [List.map_cons, List.mem_cons] at hk ⊢
        rcases hk with h | h
        · exact absurd h.symm hb
        · rw [ih h]

/-- One step of the grouping fold. -/
theorem bucketFold_cons (g : String) (p : ℤ × Row) (pairs : List (ℤ × Row))
    (bs : List Bucket) :
    bucketFold g (p :: pairs) bs =
      bucketFold g pairs (insertRow bs (getPeriodKey p.1 g) p.1 p.2) := rfl

/-- The grouping fold keeps bucket keys pairwise distinct. -/
theorem bucketFold_nodup (g : String) (pairs : List (ℤ × Row)) (bs : List Bucket)
    (h : (bs.map Bucket.key).Nodup) :
    ((bucketFold g pairs bs).map Bucket.key).Nodup := by
  induction pairs generalizing bs with
  | nil => exact h
  | cons p rest ih =>
      rw [bucketFold_cons]
      apply ih
      rw [insertRow_keys]
      split_ifs with hmem
      · exact h
      · simp only [List.nodup_append, List.nodup_cons, List.nodup_nil]
        refine ⟨h, by simp, ?_⟩
        intro x hx hxk
        rw [List.mem_singleton] at hxk
        rw [hxk] at hx
        exact hmem hx

/-- A key appears among the buckets exactly when it was already there
or some pair produces it. -/
theorem bucketFold_mem_key (g : String) (pairs : List (ℤ × Row)) (bs : List Bucket)
    (k : PKey) :
    k ∈ (bucketFold g pairs bs).map Bucket.key ↔
      k ∈ bs.map Bucket.key ∨ k ∈ pairs.map (fun p => getPeriodKey p.1 g) := by
  induction pairs generalizing bs with
  | nil => simp [bucketFold]
  | cons p rest ih =>
      rw [bucketFold_cons, ih]
      rw [insertRow_keys]
      split_ifs with hmem
      · simp only [List.map_cons, List.mem_cons]
        constructor
        · rintro (h | h)
          · exact Or.inl h
          · exact Or.inr (Or.inr h)
        · rintro (h | h | h)
          · exact Or.inl h
          · exact Or.inl (by rw [h]; exact hmem)
          · exact Or.inr h
      · simp only [List.mem_append, List.mem_singleton, List.map_cons, List.mem_cons]
        tauto

/-- The grouping fold distributes every pair into exactly one bucket. -/
theorem bucketFold_rowsum (g : String) (pairs : List (ℤ × Row)) (bs : List Bucket) :
    ((bucketFold g pairs bs).map (fun b => b.rows.length)).sum =
      ((bs.map (fun b => b.rows.length)).sum) + pairs.length := by
  induction pairs generalizing bs with
  | nil => simp [bucketFold]
  | cons p rest ih =>
      rw [bucketFold_cons, ih, insertRow_rowsum]
      simp
      omega

/-- Every bucket key is the period key of its stored date. -/
theorem bucketFold_keydate (g : String) (pairs : List (ℤ × Row)) (bs : List Bucket)
    (h : ∀ b ∈ bs, b.key = getPeriodKey b.date g) :
    ∀ b ∈ bucketFold g pairs bs, b.key = getPeriodKey b.date g := by
  induction pairs generalizing bs with
  | nil => exact h
  | cons p rest ih =>
      rw [bucketFold_cons]
      apply ih
      intro b hb
      rcases insertRow_mem _ _ _ _ b hb with ⟨b0, hb0, hk, hd, _⟩ | he
      · rw [hk, hd]
        exact h b0 hb0
      · rw [he]

/-- Rows stored in buckets come from the initial buckets or from the
processed pairs. -/
theorem bucketFold_rows_mem (g : String) (pairs : List (ℤ × Row)) (bs : List Bucket)
    (R0 : List Row) (h : ∀ b ∈ bs, ∀ r ∈ b.rows, r ∈ R0) :
    ∀ b ∈ bucketFold g pairs bs, ∀ r ∈ b.rows, r ∈ R0 ∨ ∃ p ∈ pairs, r = p.2 := by
  induction pairs generalizing bs R0 with
  | nil =>
      intro b hb r hr
      exact Or.inl (h b hb r hr)
  | cons p rest ih =>
      rw [bucketFold_cons]
      intro b hb r hr
      have step : ∀ b2 ∈ insertRow bs (getPeriodKey p.1 g) p.1 p.2, ∀ r2 ∈ b2.rows,
          r2 ∈ R0 ∨ r2 = p.2 := by
        intro b2 hb2 r2 hr2
        rcases insertRow_mem _ _ _ _ b2 hb2 with ⟨b0, hb0, _, _, hrw⟩ | he
        · rcases hrw with hrw | hrw
          · exact Or.inl (h b0 hb0 r2 (hrw ▸ hr2))
          · rw [hrw] at hr2
            rcases List.mem_append.mp hr2 with h2 | h2
            · exact Or.inl (h b0 hb0 r2 h2)
            · exact Or.inr (by simpa using h2)
        · rw [he] at hr2
          exact Or.inr (by simpa using hr2)
      -- fold the step into a combined base set
      have ih2 := ih (insertRow bs (getPeriodKey p.1 g) p.1 p.2)
        (p.2 :: R0)
        (fun b2 hb2 r2 hr2 => by
          rcases step b2 hb2 r2 hr2 with h2 | h2
          · exact List.mem_cons_of_mem _ h2
          · exact h2 ▸ List.mem_cons_self _ _)
      rcases ih2 b hb r hr with h2 | h2
      · rcases List.mem_cons.mp h2 with h3 | h3
        · exact Or.inr ⟨p, List.mem_cons_self _ _, h3⟩
        · exact Or.inl h3
      · rcases h2 with ⟨p2, hp2, he⟩
        exact Or.inr ⟨p2, List.mem_cons_of_mem _ hp2, he⟩

/-- The stored date of each bucket is the timestamp of the first pair
that opened it. -/
theorem bucketFold_firstdate (g : String) (pairs : List (ℤ × Row)) (bs : List Bucket) :
    ∀ b ∈ bucketFold g pairs bs,
      (∃ b0 ∈ bs, b.key = b0.key ∧ b.date = b0.date) ∨
      (b.key ∉ bs.map Bucket.key ∧
        (pairs.find? (fun p => getPeriodKey p.1 g = b.key)).map Prod.fst = some b.date) := by
  induction pairs generalizing bs with
  | nil =>
      intro b hb
      exact Or.inl ⟨b, hb, rfl, rfl⟩
  | cons p rest ih =>
      rw [bucketFold_cons]
      intro b hb
      by_cases hkm : getPeriodKey p.1 g ∈ bs.map Bucket.key
      · have hstale := insertRow_stale bs (getPeriodKey p.1 g) p.1 p.2 hkm
        have hkeys : (insertRow bs (getPeriodKey p.1 g) p.1 p.2).map Bucket.key =
            bs.map Bucket.key := by
          have := congrArg (List.map Prod.fst) hstale
          simpa using this
        rcases ih _ b hb with ⟨b0, hb0, hk, hd⟩ | ⟨hnk, hfind⟩
        · have hpair : (b0.key, b0.date) ∈ bs.map (fun b => (b.key, b.date)) := by
            rw [← hstale]
            exact List.mem_map.mpr ⟨b0, hb0, rfl⟩
          rcases List.mem_map.mp hpair with ⟨b1, hb1, he⟩
          refine Or.inl ⟨b1, hb1, ?_, ?_⟩
          · rw [hk, ← (Prod.mk.injEq _ _ _ _).mp he.symm |>.1]
          · rw [hd, ← (Prod.mk.injEq _ _ _ _).mp he.symm |>.2]
        · rw [hkeys] at hnk
          refine Or.inr ⟨hnk, ?_⟩
          rw [List.find?_cons_of_neg _ (by
            simp only [decide_eq_true_eq]
            intro he
            exact hnk (he ▸ hkm))]
          exact hfind
      · have hfresh := insertRow_fresh bs (getPeriodKey p.1 g) p.1 p.2 hkm
        rcases ih _ b hb with ⟨b0, hb0, hk, hd⟩ | ⟨hnk, hfind⟩
        · rw [hfresh] at hb0
          rcases List.mem_append.mp hb0 with h0 | h0
          · exact Or.inl ⟨b0, h0, hk, hd⟩
          · have he : b0 = ⟨getPeriodKey p.1 g, p.1, [p.2]⟩ := by simpa using h0
            refine Or.inr ⟨?_, ?_⟩
            · rw [hk, he]
              exact hkm
            · rw [List.find?_cons_of_pos _ (by simp [hk, he])]
              simp [hd, he]
        · rw [hfresh] at hnk
          simp only [List.map_append, List.map_cons, List.map_nil, List.mem_append,
            List.mem_cons, List.not_mem_nil, or_false, not_or] at hnk
          refine Or.inr ⟨hnk.1, ?_⟩
          rw [List.find?_cons_of_neg _ (by
            simp only [decide_eq_true_eq]
            intro he
            exact hnk.2 he.symm)]
          exact hfind

/-- The grouping pass equals the fold over the parsed pairs. -/
theorem buildBuckets_eq (rawData : List Row) (dc : String) (g : String) :
    buildBuckets rawData dc g = bucketFold g (parsedPairs rawData dc) [] := by
  suffices h : ∀ bs, rawData.foldl
      (fun bs row =>
        match parseDate (rowGet row dc) with
        | none => bs
        | some ts => insertRow bs (getPeriodKey ts g) ts row) bs =
      bucketFold g (parsedPairs rawData dc) bs by
    exact h []
  induction rawData with
  | nil => intro bs; rfl
  | cons row rest ih =>
      intro bs
      rw [List.foldl_cons]
      cases hp : parseDate (rowGet row dc) with
      | none =>
          rw [ih]
          unfold parsedPairs
          rw [List.filterMap_cons]
          rw [hp]
          rfl
      | some ts =>
          rw [ih]
          unfold parsedPairs
          rw [List.filterMap_cons, hp]
          rfl

/-- First components of the parsed pairs are the parsable dates in
order. -/
theorem parsedPairs_fst (rawData : List Row) (dc : String) :
    (parsedPairs rawData dc).map Prod.fst =
      rawData.filterMap (fun r => parseDate (rowGet r dc)) := by
  induction rawData with
  | nil => rfl
  | cons row rest ih =>
      unfold parsedPairs at ih ⊢
      rw [List.filterMap_cons, List.filterMap_cons]
      cases hp : parseDate (rowGet row dc) with
      | none => exact ih
      | some ts =>
          simp [ih]

/-! ## Decimal renderings, key injectivity, and the remaining claims -/

/-- The fuelled digit expansion agrees with the library expansion
once the fuel covers the number. -/
theorem natDigitsAux_eq (fuel n : ℕ) (h : n ≤ fuel) :
    natDigitsAux fuel n = Nat.digits 10 n := by
  induction fuel generalizing n with
  | zero => interval_cases n; simp [natDigitsAux]
  | succ f ih =>
    match n with
    | 0 => simp [natDigitsAux]
    | m + 1 =>
      rw [show natDigitsAux (f + 1) (m + 1)
            = (m + 1) % 10 :: natDigitsAux f ((m + 1) / 10) from rfl,
          Nat.digits_def' (b := 10) (by norm_num) (Nat.succ_pos m),
          ih ((m + 1) / 10) (by omega)]

/-- Digits of `n` with fuel `n` are exactly the base-10 digits. -/
theorem natDigits_eq (n : ℕ) : natDigits n = Nat.digits 10 n :=
  natDigitsAux_eq n n le_rfl

/-- Reading back a rendered digit gives the digit. -/
theorem digitVal_digitChar (d : ℕ) (h : d < 10) :
    digitVal (Nat.digitChar d) = d := by
  interval_cases d <;> decide

/-- Value of the digit fold from an arbitrary accumulator. -/
theorem digitsVal_fold (cs : List Char) (a : ℕ) :
    cs.foldl (fun acc c => 10 * acc + digitVal c) a
      = a * 10 ^ cs.length + digitsVal cs := by
  induction cs generalizing a with
  | nil => simp [digitsVal]
  | cons c t ih =>
    simp only [List.foldl_cons, List.length_cons, digitsVal]
    rw [ih (10 * a + digitVal c), ih (10 * 0 + digitVal c)]
    ring

/-- Appending one digit multiplies the value by ten and adds it. -/
theorem digitsVal_concat (cs : List Char) (c : Char) :
    digitsVal (cs ++ [c]) = 10 * digitsVal cs + digitVal c := by
  simp only [digitsVal, List.foldl_append, List.foldl_cons, List.foldl_nil]

/-- The character value of a reversed digit rendering is the number
the digits denote. -/
theorem digitsVal_revmap (L : List ℕ) (h : ∀ d ∈ L, d < 10) :
    digitsVal ((L.map Nat.digitChar).reverse) = Nat.ofDigits 10 L := by
  induction L with
  | nil => rfl
  | cons d t ih =>
    simp only [List.map_cons, List.reverse_cons]
    rw [digitsVal_concat, ih (fun x hx => h x (List.mem_cons_of_mem _ hx)),
        digitVal_digitChar d (h d (List.mem_cons_self d t)), Nat.ofDigits_cons]
    ring

/-- Reading the decimal rendering of `n` gives `n` back: `natRepr`
has a left inverse, so it is injective. -/
theorem natReprVal (n : ℕ) : digitsVal (natRepr n) = n := by
  rw [natRepr]
  by_cases h : n = 0
  · subst h; decide
  · rw [if_neg h, natDigits_eq,
        digitsVal_revmap _ (fun d hd => Nat.digits_lt_base (by norm_num) hd),
        Nat.ofDigits_digits]

/-- A leading zero character does not change the value read. -/
theorem digitsVal_cons_zero (cs : List Char) :
    digitsVal ('0' :: cs) = digitsVal cs := by
  have h : (10 * 0 + digitVal '0') = 0 := by decide
  simp only [digitsVal, List.foldl_cons, h]

/-- Zero padding does not change the value read. -/
theorem digitsVal_zeros (k : ℕ) (cs : List Char) :
    digitsVal (List.replicate k '0' ++ cs) = digitsVal cs := by
  induction k with
  | zero => rfl
  | succ k ih =>
    rw [List.replicate_succ, List.cons_append, digitsVal_cons_zero, ih]

/-- Reading a zero-padded rendering gives the number back. -/
theorem padNatVal (w n : ℕ) : digitsVal (padNat w n) = n := by
  rw [padNat, digitsVal_zeros, natReprVal]

/-- Zero-padded renderings of equal width are injective. -/
theorem padNat_inj {w n1 n2 : ℕ} (h : padNat w n1 = padNat w n2) : n1 = n2 := by
  have := congrArg digitsVal h
  rwa [padNatVal, padNatVal] at this

/-- Every character of a decimal rendering is a digit. -/
theorem natRepr_chars (n : ℕ) (c : Char) (hc : c ∈ natRepr n) :
    48 ≤ c.toNat ∧ c.toNat ≤ 57 := by
  rw [natRepr] at hc
  by_cases h : n = 0
  · rw [if_pos h] at hc
    simp only [List.mem_singleton] at hc
    subst hc; decide
  · rw [if_neg h] at hc
    rw [List.mem_reverse, List.mem_map] at hc
    obtain ⟨d, hd, rfl⟩ := hc
    rw [natDigits_eq] at hd
    have : d < 10 := Nat.digits_lt_base (by norm_num) hd
    interval_cases d <;> exact ⟨by decide, by decide⟩

/-- Every character of a zero-padded rendering is a digit. -/
theorem padNat_chars (w n : ℕ) (c : Char) (hc : c ∈ padNat w n) :
    48 ≤ c.toNat ∧ c.toNat ≤ 57 := by
  rw [padNat] at hc
  rcases List.mem_append.mp hc with h | h
  · rw [List.eq_of_mem_replicate h]; decide
  · exact natRepr_chars _ _ h

/-- Decimal renderings are injective. -/
theorem natRepr_inj {n1 n2 : ℕ} (h : natRepr n1 = natRepr n2) : n1 = n2 := by
  have := congrArg digitsVal h
  rwa [natReprVal, natReprVal] at this

/-- The `yyyy` year rendering is injective (the sign character is
never a digit). -/
theorem pad4Year_inj {y1 y2 : ℤ} (h : pad4Year y1 = pad4Year y2) : y1 = y2 := by
  rw [pad4Year, pad4Year] at h
  by_cases h1 : y1 < 0 <;> by_cases h2 : y2 < 0
  · rw [if_pos h1, if_pos h2] at h
    have := padNat_inj (List.cons_injective h)
    omega
  · rw [if_pos h1, if_neg h2] at h
    have hm : '-' ∈ padNat 4 y2.natAbs := h ▸ List.mem_cons_self _ _
    exact absurd (padNat_chars _ _ _ hm) (by decide)
  · rw [if_neg h1, if_pos h2] at h
    have hm : '-' ∈ padNat 4 y1.natAbs := h.symm ▸ List.mem_cons_self _ _
    exact absurd (padNat_chars _ _ _ hm) (by decide)
  · rw [if_neg h1, if_neg h2] at h
    have := padNat_inj h
    omega

/-- The integer rendering is injective. -/
theorem intRepr_inj {z1 z2 : ℤ} (h : intRepr z1 = intRepr z2) : z1 = z2 := by
  rw [intRepr, intRepr] at h
  by_cases h1 : z1 < 0 <;> by_cases h2 : z2 < 0
  · rw [if_pos h1, if_pos h2] at h
    have := natRepr_inj (List.cons_injective h)
    omega
  · rw [if_pos h1, if_neg h2] at h
    have hm : '-' ∈ natRepr z2.natAbs := h ▸ List.mem_cons_self _ _
    exact absurd (natRepr_chars _ _ hm) (by decide)
  · rw [if_neg h1, if_pos h2] at h
    have hm : '-' ∈ natRepr z1.natAbs := h.symm ▸ List.mem_cons_self _ _
    exact absurd (natRepr_chars _ _ hm) (by decide)
  · rw [if_neg h1, if_neg h2] at h
    have := natRepr_inj h
    omega

/-- A number below `10 ^ k` renders in at most `k` digits. -/
theorem natRepr_length_le (n k : ℕ) (hk : 1 ≤ k) (h : n < 10 ^ k) :
    (natRepr n).length ≤ k := by
  rw [natRepr]
  by_cases h0 : n = 0
  · rw [if_pos h0]; simpa
  · rw [if_neg h0, List.length_reverse, List.length_map, natDigits_eq,
        Nat.digits_len 10 n (by norm_num) h0]
    have := Nat.log_lt_of_lt_pow h0 h
    omega

/-- Padded width is exact when the bare rendering fits. -/
theorem padNat_length (w n : ℕ) (h : (natRepr n).length ≤ w) :
    (padNat w n).length = w := by
  rw [padNat]
  simp only [List.length_append, List.length_replicate]
  omega

/-- A number below `10 ^ w` pads to exactly `w` characters. -/
theorem padNat_length_small (w n : ℕ) (hw : 1 ≤ w) (h : n < 10 ^ w) :
    (padNat w n).length = w :=
  padNat_length w n (natRepr_length_le n w hw h)

/-- The `yyyy-MM-dd` key rendering is injective for in-range month
and day components. -/
theorem pkeyString_day_inj {y1 m1 d1 y2 m2 d2 : ℤ}
    (hm1 : m1.natAbs < 100) (hd1 : d1.natAbs < 100)
    (hm2 : m2.natAbs < 100) (hd2 : d2.natAbs < 100)
    (h : pkeyString (.day y1 m1 d1) = pkeyString (.day y2 m2 d2)) :
    y1 = y2 ∧ m1.natAbs = m2.natAbs ∧ d1.natAbs = d2.natAbs := by
  simp only [pkeyString] at h
  injection h with h
  have hl2 : ∀ n : ℤ, n.natAbs < 100 → ('-' :: padNat 2 n.natAbs).length = 3 := by
    intro n hn
    simp [padNat_length_small 2 n.natAbs (by norm_num) (by omega)]
  obtain ⟨hy, hdd⟩ := List.append_inj' h (by rw [hl2 _ hd1, hl2 _ hd2])
  obtain ⟨hy2, hmm⟩ := List.append_inj' hy (by rw [hl2 _ hm1, hl2 _ hm2])
  exact ⟨pad4Year_inj hy2, padNat_inj (List.cons_injective hmm),
    padNat_inj (List.cons_injective hdd)⟩

/-- The `yyyy-MM` key rendering is injective for in-range months. -/
theorem pkeyString_month_inj {y1 m1 y2 m2 : ℤ}
    (hm1 : m1.natAbs < 100) (hm2 : m2.natAbs < 100)
    (h : pkeyString (.month y1 m1) = pkeyString (.month y2 m2)) :
    y1 = y2 ∧ m1.natAbs = m2.natAbs := by
  simp only [pkeyString] at h
  injection h with h
  obtain ⟨hy, hm⟩ := List.append_inj' h (by
    simp [padNat_length_small 2 m1.natAbs (by norm_num) (by omega),
      padNat_length_small 2 m2.natAbs (by norm_num) (by omega)])
  exact ⟨pad4Year_inj hy, padNat_inj (List.cons_injective hm)⟩

/-- A quarter index renders in one character. -/
theorem intRepr_length_small {q : ℤ} (h1 : 1 ≤ q) (h2 : q ≤ 4) :
    (intRepr q).length = 1 := by
  interval_cases q <;> decide

/-- The `{year}-Q{quarter}` key rendering is injective for in-range
quarters. -/
theorem pkeyString_quarter_inj {y1 q1 y2 q2 : ℤ}
    (h11 : 1 ≤ q1) (h12 : q1 ≤ 4) (h21 : 1 ≤ q2) (h22 : q2 ≤ 4)
    (h : pkeyString (.quarter y1 q1) = pkeyString (.quarter y2 q2)) :
    y1 = y2 ∧ q1 = q2 := by
  simp only [pkeyString] at h
  injection h with h
  obtain ⟨hy, hq⟩ := List.append_inj' h (by
    simp [intRepr_length_small h11 h12, intRepr_length_small h21 h22])
  exact ⟨intRepr_inj hy,
    intRepr_inj (List.cons_injective (List.cons_injective hq))⟩

/-- No month is longer than thirty-one days. -/
theorem daysInMonth_le31 (y m : ℤ) : daysInMonth y m ≤ 31 := by
  have := leapDay_cases y
  unfold daysInMonth
  split_ifs <;> omega

/-- The quarter of an in-range month is between one and four. -/
theorem quarterIndex_range {m : ℤ} (h1 : 1 ≤ m) (h2 : m ≤ 12) :
    1 ≤ quarterIndex m ∧ quarterIndex m ≤ 4 := by
  unfold quarterIndex
  omega

/-- Within one granularity, equal period-key strings come from equal
structured period keys: the string rendering is injective on the keys
the aggregator produces. -/
theorem getPeriodKey_str_inj (g : String) (ts1 ts2 : ℤ)
    (h : pkeyString (getPeriodKey ts1 g) = pkeyString (getPeriodKey ts2 g)) :
    getPeriodKey ts1 g = getPeriodKey ts2 g := by
  have hv1 := civilFromDays_valid (dayOfTs ts1)
  have hv2 := civilFromDays_valid (dayOfTs ts2)
  have hdm1 := daysInMonth_le31 (civilFromDays (dayOfTs ts1)).year
    (civilFromDays (dayOfTs ts1)).month
  have hdm2 := daysInMonth_le31 (civilFromDays (dayOfTs ts2)).year
    (civilFromDays (dayOfTs ts2)).month
  by_cases hd : g = "daily"
  · subst hd
    rw [getPeriodKey, getPeriodKey, if_pos rfl, if_pos rfl] at h ⊢
    simp only [civilOfTs] at h ⊢
    obtain ⟨hy, hm, hdd⟩ := pkeyString_day_inj
      (by omega) (by omega) (by omega) (by omega) h
    simp only [PKey.day.injEq]
    omega
  · by_cases hm : g = "monthly"
    · subst hm
      rw [getPeriodKey, getPeriodKey, if_neg (by decide), if_pos rfl,
        if_neg (by decide), if_pos rfl] at h ⊢
      simp only [civilOfTs] at h ⊢
      obtain ⟨hy, hmm⟩ := pkeyString_month_inj (by omega) (by omega) h
      simp only [PKey.month.injEq]
      omega
    · by_cases hq : g = "quarterly"
      · subst hq
        rw [getPeriodKey, getPeriodKey, if_neg (by decide), if_neg (by decide),
          if_pos rfl, if_neg (by decide), if_neg (by decide), if_pos rfl] at h ⊢
        simp only [civilOfTs] at h ⊢
        have hr1 := quarterIndex_range hv1.1 hv1.2.1
        have hr2 := quarterIndex_range hv2.1 hv2.2.1
        obtain ⟨hy, hqq⟩ := pkeyString_quarter_inj hr1.1 hr1.2 hr2.1 hr2.2 h
        simp only [PKey.quarter.injEq]
        omega
      · rw [getPeriodKey, getPeriodKey, if_neg hd, if_neg hm, if_neg hq,
          if_neg hd, if_neg hm, if_neg hq] at h ⊢
        simp only [civilOfTs] at h ⊢
        obtain ⟨hy, hmm, hdd⟩ := pkeyString_day_inj
          (by omega) (by omega) (by omega) (by omega) h
        simp only [PKey.day.injEq]
        omega

/-- The chronological bucket comparator is transitive. -/
theorem bucketLe_trans : ∀ a b c : Bucket,
    bucketLe a b = true → bucketLe b c = true → bucketLe a c = true := by
  intro a b c hab hbc
  simp only [bucketLe, decide_eq_true_eq] at *
  omega

/-- The chronological bucket comparator is total. -/
theorem bucketLe_total : ∀ a b : Bucket, (bucketLe a b || bucketLe b a) = true := by
  intro a b
  simp only [bucketLe, Bool.or_eq_true, decide_eq_true_eq]
  omega

/-- Claim C7 (confirmed): in every aggregation result, each
`periodKey` value occurs on exactly one aggregated row, and the rows
are in strictly ascending chronological order: both the stored dates
and the bucket start dates increase, for every granularity (the sort
is by date value, not by the string key). -/
theorem claim_C7 (rawData : List Row) (mapping : AMap) (granularity : String)
    (metrics : List Metric) :
    ((aggregate rawData mapping granularity metrics).map AggRow.periodKey).Nodup ∧
    (aggregate rawData mapping granularity metrics).Pairwise
      (fun a b => a.date < b.date ∧
        bucketStart granularity a.date < bucketStart granularity b.date) := by
  cases hdc : mapCol mapping "date" with
  | none => simp [aggregate, hdc]
  | some dc =>
      by_cases hr : rawData = []
      · simp [aggregate, hdc, hr]
      · have hagg : aggregate rawData mapping granularity metrics =
            ((buildBuckets rawData dc granularity).mergeSort bucketLe).map
              (aggRowOf mapping granularity metrics) := by
          simp only [aggregate, hdc, if_neg hr]
        rw [hagg]
        set bs := buildBuckets rawData dc granularity with hbs
        have hkeys : (bs.map Bucket.key).Nodup := by
          rw [hbs, buildBuckets_eq]
          exact bucketFold_nodup granularity (parsedPairs rawData dc) [] (by simp)
        have hkd : ∀ b ∈ bs, b.key = getPeriodKey b.date granularity := by
          rw [hbs, buildBuckets_eq]
          exact bucketFold_keydate granularity (parsedPairs rawData dc) [] (by simp)
        have hperm : (bs.mergeSort bucketLe).Perm bs := List.mergeSort_perm bs bucketLe
        have hkd2 : ∀ b ∈ bs.mergeSort bucketLe, b.key = getPeriodKey b.date granularity :=
          fun b hb => hkd b (hperm.mem_iff.mp hb)
        have hne : bs.Pairwise (fun a b => a.key ≠ b.key) := by
          rw [List.Nodup, List.pairwise_map] at hkeys
          exact hkeys
        have hne2 : (bs.mergeSort bucketLe).Pairwise (fun a b => a.key ≠ b.key) :=
          hne.perm hperm.symm (fun hxy => (hxy ∘ Eq.symm))
        have hsorted : (bs.mergeSort bucketLe).Pairwise (fun a b => bucketLe a b = true) :=
          List.sorted_mergeSort bucketLe_trans bucketLe_total bs
        have hcomb := hsorted.and hne2
        have hstrict : (bs.mergeSort bucketLe).Pairwise
            (fun a b => a.date < b.date ∧
              bucketStart granularity a.date < bucketStart granularity b.date) := by
          refine hcomb.imp_of_mem ?_
          intro a b ha hb hab
          obtain ⟨hle, hkne⟩ := hab
          simp only [bucketLe, decide_eq_true_eq] at hle
          have hgne : getPeriodKey a.date granularity ≠ getPeriodKey b.date granularity := by
            rw [← hkd2 a ha, ← hkd2 b hb]
            exact hkne
          have hdne : a.date ≠ b.date := by
            intro hcon
            exact hgne (by rw [hcon])
          exact ⟨lt_of_le_of_ne hle hdne, bucketStart_lt hle hgne⟩
        constructor
        · have hmm : ((bs.mergeSort bucketLe).map (aggRowOf mapping granularity metrics)).map
              AggRow.periodKey = (bs.mergeSort bucketLe).map (fun b => pkeyString b.key) := by
            rw [List.map_map]
            rfl
          rw [hmm, List.Nodup, List.pairwise_map]
          refine hne2.imp_of_mem ?_
          intro a b ha hb hkne hstr
          apply hkne
          rw [hkd2 a ha, hkd2 b hb] at hstr ⊢
          exact getPeriodKey_str_inj granularity a.date b.date hstr
        · rw [List.pairwise_map]
          exact hstrict.imp (fun h => h)

/-- Claim C6 (confirmed): daily aggregation returns the empty list
when the rows are empty or the mapping lacks a date column; otherwise
it produces exactly one row per distinct calendar day among the rows
whose date parses, and the row counts sum to the number of rows with
a parsable date. -/
theorem claim_C6 (rawData : List Row) (mapping : AMap) (metrics : List Metric) :
    ((rawData = [] ∨ mapCol mapping "date" = none) →
      aggregate rawData mapping "daily" metrics = []) ∧
    (∀ dc, mapCol mapping "date" = some dc →
      (aggregate rawData mapping "daily" metrics).length =
        ((rawData.filterMap (fun r => parseDate (rowGet r dc))).map dayOfTs).toFinset.card ∧
      ((aggregate rawData mapping "daily" metrics).map AggRow.rowCount).sum =
        (rawData.filterMap (fun r => parseDate (rowGet r dc))).length) := by
  constructor
  · rintro (rfl | hnone)
    · rw [aggregate]
      cases mapCol mapping "date" <;> simp
    · simp [aggregate, hnone]
  · intro dc hdc
    by_cases hr : rawData = []
    · subst hr
      simp [aggregate, hdc]
    · have hagg : aggregate rawData mapping "daily" metrics =
          ((buildBuckets rawData dc "daily").mergeSort bucketLe).map
            (aggRowOf mapping "daily" metrics) := by
        simp only [aggregate, hdc, if_neg hr]
      have hperm : ((buildBuckets rawData dc "daily").mergeSort bucketLe).Perm
          (buildBuckets rawData dc "daily") :=
        List.mergeSort_perm (buildBuckets rawData dc "daily") bucketLe
      have hkeys : ((buildBuckets rawData dc "daily").map Bucket.key).Nodup := by
        rw [buildBuckets_eq]
        exact bucketFold_nodup "daily" (parsedPairs rawData dc) [] (by simp)
      have hmem : ∀ k, k ∈ (buildBuckets rawData dc "daily").map Bucket.key ↔
          k ∈ (parsedPairs rawData dc).map (fun p => getPeriodKey p.1 "daily") := by
        intro k
        rw [buildBuckets_eq, bucketFold_mem_key]
        simp
      have hfin : ((buildBuckets rawData dc "daily").map Bucket.key).toFinset =
          ((parsedPairs rawData dc).map (fun p => getPeriodKey p.1 "daily")).toFinset := by
        ext k
        simp only [List.mem_toFinset]
        exact hmem k
      have hcard : (buildBuckets rawData dc "daily").length =
          ((parsedPairs rawData dc).map (fun p => getPeriodKey p.1 "daily")).toFinset.card := by
        rw [← hfin, List.toFinset_card_of_nodup hkeys, List.length_map]
      have hfun : (parsedPairs rawData dc).map (fun p => getPeriodKey p.1 "daily") =
          ((parsedPairs rawData dc).map (fun p => dayOfTs p.1)).map
            (fun n => PKey.day (civilFromDays n).year (civilFromDays n).month
              (civilFromDays n).day) := by
        rw [List.map_map]
        apply List.map_congr_left
        intro p _
        rw [getPeriodKey, if_pos rfl]
        rfl
      have hinj : Function.Injective (fun n : ℤ =>
          PKey.day (civilFromDays n).year (civilFromDays n).month (civilFromDays n).day) := by
        intro n1 n2 he
        simp only [PKey.day.injEq] at he
        rw [← daysFromCivil_civilFromDays n1, ← daysFromCivil_civilFromDays n2,
          he.1, he.2.1, he.2.2]
      have hdays : ((parsedPairs rawData dc).map
            (fun p => getPeriodKey p.1 "daily")).toFinset.card =
          ((parsedPairs rawData dc).map (fun p => dayOfTs p.1)).toFinset.card := by
        rw [hfun]
        have himg : (((parsedPairs rawData dc).map (fun p => dayOfTs p.1)).map
            (fun n => PKey.day (civilFromDays n).year (civilFromDays n).month
              (civilFromDays n).day)).toFinset =
            ((parsedPairs rawData dc).map (fun p => dayOfTs p.1)).toFinset.image
              (fun n => PKey.day (civilFromDays n).year (civilFromDays n).month
                (civilFromDays n).day) := by
          ext k
          simp
        rw [himg, Finset.card_image_of_injective _ hinj]
      have hfst : (parsedPairs rawData dc).map (fun p => dayOfTs p.1) =
          ((rawData.filterMap (fun r => parseDate (rowGet r dc))).map dayOfTs) := by
        rw [← parsedPairs_fst, List.map_map]
        rfl
      constructor
      · rw [hagg, List.length_map, hperm.length_eq, hcard, hdays, hfst]
      · rw [hagg, List.map_map]
        have hco : (AggRow.rowCount ∘ aggRowOf mapping "daily" metrics)
            = fun b : Bucket => b.rows.length := rfl
        rw [hco, (hperm.map (fun b : Bucket => b.rows.length)).sum_eq, buildBuckets_eq,
          bucketFold_rowsum]
        have hpl : (parsedPairs rawData dc).length =
            (rawData.filterMap (fun r => parseDate (rowGet r dc))).length := by
          rw [← parsedPairs_fst, List.length_map]
        simp [hpl]

/-- Claim C3 (corrected): the `date` of every aggregated row is the
parsed date of the first row that opened its bucket - the first-seen
timestamp, not the bucket start (see `claim_C3_counterexample`). -/
theorem claim_C3 (rawData : List Row) (mapping : AMap) (granularity : String)
    (metrics : List Metric) (dc : String) (hdc : mapCol mapping "date" = some dc) :
    ∀ r ∈ aggregate rawData mapping granularity metrics,
      ((parsedPairs rawData dc).find?
          (fun p => getPeriodKey p.1 granularity = r.pkey)).map Prod.fst = some r.date := by
  intro r hr
  by_cases hraw : rawData = []
  · subst hraw
    simp [aggregate, hdc] at hr
  · have hagg : aggregate rawData mapping granularity metrics =
        ((buildBuckets rawData dc granularity).mergeSort bucketLe).map
          (aggRowOf mapping granularity metrics) := by
      simp only [aggregate, hdc, if_neg hraw]
    rw [hagg] at hr
    obtain ⟨b, hb, rfl⟩ := List.mem_map.mp hr
    have hbmem : b ∈ buildBuckets rawData dc granularity :=
      (List.mergeSort_perm _ bucketLe).mem_iff.mp hb
    have hfd := bucketFold_firstdate granularity (parsedPairs rawData dc) [] b
      (by rw [← buildBuckets_eq]; exact hbmem)
    rcases hfd with ⟨b0, hb0, _⟩ | ⟨_, hfind⟩
    · simp at hb0
    · exact hfind

/-- Claim C8 (confirmed): for each of the five aggregation types, an
empty valid-value set - no values, or all values invalid - reduces to
the number `0`, including for a metric of a non-empty period whose
column has no valid numeric values. -/
theorem claim_C8 (t : String)
    (ht : t = "sum" ∨ t = "average" ∨ t = "count" ∨ t = "min" ∨ t = "max") :
    aggregateValues [] t = .fin 0 ∧
    (∀ values : List JsNum, (∀ v ∈ values, v = .nan) →
      aggregateValues values t = .fin 0) ∧
    (∀ (mapping : AMap) (g : String) (metrics : List Metric) (b : Bucket)
        (metric : Metric), metric ∈ metrics → metric.aggregationType = t →
      b.rows.filterMap (fun row => parseNumericValue
          (rowGet row ((mapCol mapping metric.field).getD metric.field))) = [] →
      (metric.field, JsNum.fin 0) ∈ (aggRowOf mapping g metrics b).values) := by
  refine ⟨by rw [aggregateValues, if_pos rfl], ?_, ?_⟩
  · intro values hv
    rw [aggregateValues]
    by_cases he : values = []
    · rw [if_pos he]
    · rw [if_neg he]
      have hf : values.filter (fun v => ¬ v = JsNum.nan) = [] := by
        rw [List.filter_eq_nil_iff]
        intro v hvm
        simp [hv v hvm]
      simp only [hf, if_pos rfl]
      simp
  · intro mapping g metrics b metric hmem _ hvals
    have : (metric.field, JsNum.fin 0) =
        (fun metric : Metric =>
          (metric.field, aggregateValues
            (b.rows.filterMap (fun row => parseNumericValue
              (rowGet row ((mapCol mapping metric.field).getD metric.field))))
            metric.aggregationType)) metric := by
      simp only [hvals]
      rw [aggregateValues, if_pos rfl]
    rw [aggRowOf]
    exact this ▸ List.mem_map_of_mem _ hmem

/-- Claim C3 as stated is false: a serial date mid-March 2023 opens a
monthly bucket whose `date` stays the mid-month timestamp, not the
first of the month the claim requires. -/
theorem claim_C3_counterexample :
    (aggregate [[("date", JsVal.num (.fin 45000))]] [("date", "date")] "monthly" []).map
        AggRow.date = [1678838400000] ∧
    bucketStart "monthly" 1678838400000 = 1677628800000 ∧
    (1678838400000 : ℤ) ≠ 1677628800000 := by
  refine ⟨?_, by with_unfolding_all rfl, by decide⟩
  have hm : mapCol [("date", "date")] "date" = some "date" := by with_unfolding_all rfl
  have hb : buildBuckets [[("date", JsVal.num (.fin 45000))]] "date" "monthly" =
      [⟨.month 2023 3, 1678838400000, [[("date", JsVal.num (.fin 45000))]]⟩] := by
    with_unfolding_all rfl
  simp only [aggregate, hm, hb,
    if_neg (show ¬([[("date", JsVal.num (.fin 45000))]] = ([] : List Row)) from by decide),
    List.mergeSort_singleton]
  with_unfolding_all rfl

/-- Witness for the amended claim C3 at a concrete monthly dataset. -/
theorem claim_C3_witness :
    ((parsedPairs [[("date", JsVal.num (.fin 45000))]] "date").find?
        (fun p => getPeriodKey p.1 "monthly" = PKey.month 2023 3)).map Prod.fst =
      some 1678838400000 := by
  have hm : mapCol [("date", "date")] "date" = some "date" := by with_unfolding_all rfl
  have hmem : (⟨.month 2023 3, "2023-03", "Mar 2023", 1678838400000, 1, []⟩ : AggRow) ∈
      aggregate [[("date", JsVal.num (.fin 45000))]] [("date", "date")] "monthly" [] := by
    have hb : buildBuckets [[("date", JsVal.num (.fin 45000))]] "date" "monthly" =
        [⟨.month 2023 3, 1678838400000, [[("date", JsVal.num (.fin 45000))]]⟩] := by
      with_unfolding_all rfl
    simp only [aggregate, hm, hb,
      if_neg (show ¬([[("date", JsVal.num (.fin 45000))]] = ([] : List Row)) from by decide),
      List.mergeSort_singleton]
    have : aggRowOf [("date", "date")] "monthly" []
        ⟨.month 2023 3, 1678838400000, [[("date", JsVal.num (.fin 45000))]]⟩ =
        ⟨.month 2023 3, "2023-03", "Mar 2023", 1678838400000, 1, []⟩ := by
      with_unfolding_all rfl
    rw [List.map_cons, this]
    exact List.mem_singleton.mpr rfl
  exact claim_C3 [[("date", JsVal.num (.fin 45000))]] [("date", "date")] "monthly" []
    "date" hm _ hmem

/-- Witness for claim C6 on a one-row dataset. -/
theorem claim_C6_witness :
    (aggregate [[("date", JsVal.num (.fin 45000))]] [("date", "date")] "daily" []).length =
      (([[("date", JsVal.num (.fin 45000))]].filterMap
        (fun r => parseDate (rowGet r "date"))).map dayOfTs).toFinset.card ∧
    ((aggregate [[("date", JsVal.num (.fin 45000))]] [("date", "date")] "daily" []).map
        AggRow.rowCount).sum =
      ([[("date", JsVal.num (.fin 45000))]].filterMap
        (fun r => parseDate (rowGet r "date"))).length :=
  ⟨((claim_C6 [[("date", JsVal.num (.fin 45000))]] [("date", "date")] []).2 "date"
      (by with_unfolding_all rfl)).1,
   ((claim_C6 [[("date", JsVal.num (.fin 45000))]] [("date", "date")] []).2 "date"
      (by with_unfolding_all rfl)).2⟩

/-- Witness for claim C8 at concrete empty and all-invalid inputs. -/
theorem claim_C8_witness :
    aggregateValues [] "min" = .fin 0 ∧
    aggregateValues [.nan, .nan] "average" = .fin 0 ∧
    ("revenue", JsNum.fin 0) ∈ (aggRowOf [] "daily" [⟨"revenue", "sum"⟩]
      ⟨.day 2023 3 15, 1678838400000, [[("other", JsVal.str "abc")]]⟩).values := by
  refine ⟨(claim_C8 "min" (by tauto)).1, ?_, ?_⟩
  · exact (claim_C8 "average" (by tauto)).2.1 [.nan, .nan] (by
      intro v hv
      fin_cases hv <;> rfl)
  · exact (claim_C8 "sum" (by tauto)).2.2 [] "daily" [⟨"revenue", "sum"⟩]
      ⟨.day 2023 3 15, 1678838400000, [[("other", JsVal.str "abc")]]⟩
      ⟨"revenue", "sum"⟩ (by simp) rfl (by with_unfolding_all rfl)

/-- One step of the per-category match count. -/
theorem matchCount_cons (v : JsVal) (rest : List JsVal) (cat : String) :
    matchCount (v :: rest) cat =
      (if classifyValue v = some cat then 1 else 0) + matchCount rest cat := by
  rw [matchCount, matchCount, List.filter_cons]
  by_cases h : classifyValue v = some cat
  · simp [h]
    omega
  · simp [h]

/-- The date counter increments exactly on values the specification
classifies as dates. -/
theorem countStep_date (tc : TypeCounts) (v : JsVal) :
    (countStep tc v).dateCount =
      tc.dateCount + (if classifyValue v = some "date" then 1 else 0) := by
  rw [countStep, classifyValue]
  split_ifs <;> simp_all

/-- The number counter increments exactly on values the specification
classifies as numbers. -/
theorem countStep_number (tc : TypeCounts) (v : JsVal) :
    (countStep tc v).numberCount =
      tc.numberCount + (if classifyValue v = some "number" then 1 else 0) := by
  rw [countStep, classifyValue]
  split_ifs <;> simp_all

/-- The percentage counter increments exactly on values the
specification classifies as percentages. -/
theorem countStep_percent (tc : TypeCounts) (v : JsVal) :
    (countStep tc v).percentCount =
      tc.percentCount + (if classifyValue v = some "percentage" then 1 else 0) := by
  rw [countStep, classifyValue]
  split_ifs <;> simp_all

/-- The currency counter increments exactly on values the
specification classifies as currency. -/
theorem countStep_currency (tc : TypeCounts) (v : JsVal) :
    (countStep tc v).currencyCount =
      tc.currencyCount + (if classifyValue v = some "currency" then 1 else 0) := by
  rw [countStep, classifyValue]
  split_ifs <;> simp_all

/-- The classification loop computes the per-category match counts. -/
theorem countStep_counts (sample : List JsVal) (tc : TypeCounts) :
    sample.foldl countStep tc =
      ⟨tc.dateCount + matchCount sample "date",
       tc.numberCount + matchCount sample "number",
       tc.percentCount + matchCount sample "percentage",
       tc.currencyCount + matchCount sample "currency"⟩ := by
  induction sample generalizing tc with
  | nil =>
      cases tc
      simp [matchCount]
  | cons v rest ih =>
      rw [List.foldl_cons, ih, matchCount_cons, matchCount_cons, matchCount_cons,
        matchCount_cons, countStep_date, countStep_number, countStep_percent,
        countStep_currency]
      congr 1 <;> omega

/-- A string accepted by the ISO shape test is four digits, a dash,
two digits, a dash and two digits. -/
theorem isoShape_shape {cs : List Char} {y m d : ℤ} (h : isoShape? cs = some (y, m, d)) :
    ∃ a b c d4 e f g h8, cs = [a, b, c, d4, '-', e, f, '-', g, h8] ∧
      isDigitChar a = true ∧ isDigitChar b = true ∧ isDigitChar c = true ∧
      isDigitChar d4 = true ∧ isDigitChar e = true ∧ isDigitChar f = true ∧
      isDigitChar g = true ∧ isDigitChar h8 = true := by
  rcases cs with _ | ⟨a, _ | ⟨b, _ | ⟨c, _ | ⟨d4, _ | ⟨s1, _ | ⟨e, _ | ⟨f, _ |
    ⟨s2, _ | ⟨g, _ | ⟨h8, _ | ⟨x, rest⟩⟩⟩⟩⟩⟩⟩⟩⟩⟩⟩ <;>
    first
    | (exact Option.noConfusion h)
    | skip
  rw [isoShape?] at h
  split_ifs at h with hc
  obtain ⟨h1, h2, h3⟩ := hc
  simp only [List.all_cons, List.all_nil, Bool.and_eq_true] at h3
  exact ⟨a, b, c, d4, e, f, g, h8, by rw [h1, h2],
    h3.1, h3.2.1, h3.2.2.1, h3.2.2.2.1, h3.2.2.2.2.1, h3.2.2.2.2.2.1,
    h3.2.2.2.2.2.2.1, h3.2.2.2.2.2.2.2.1⟩

/-- A digit character is not JavaScript whitespace. -/
theorem digit_not_space {c : Char} (h : isDigitChar c = true) : isJsSpace c = false := by
  rw [isDigitChar, decide_eq_true_eq] at h
  rw [isJsSpace, decide_eq_false_iff_not]
  rintro (rfl | rfl | rfl | rfl | h2 | h2 | h2 | h2 | h2 | h2 | h2 | h2 | h2 | h2 | h2)
  · exact absurd h (by decide)
  · exact absurd h (by decide)
  · exact absurd h (by decide)
  · exact absurd h (by decide)
  all_goals omega

/-- The dash is not JavaScript whitespace. -/
theorem dash_not_space : isJsSpace '-' = false := by decide

/-- A digit character is not a currency glyph. -/
theorem digit_not_currency {c : Char} (h : isDigitChar c = true) :
    isCurrencyChar c = false := by
  rw [isDigitChar, decide_eq_true_eq] at h
  rw [isCurrencyChar, decide_eq_false_iff_not]
  rintro (rfl | rfl | rfl | rfl) <;> exact absurd h (by decide)

/-- A digit character is not the percent sign. -/
theorem digit_ne_percent {c : Char} (h : isDigitChar c = true) : ¬ c = '%' := by
  rw [isDigitChar, decide_eq_true_eq] at h
  rintro rfl
  exact absurd h (by decide)

/-- A digit character is not the dash. -/
theorem digit_not_dash {c : Char} (h : isDigitChar c = true) : (c = '-') = False := by
  rw [isDigitChar, decide_eq_true_eq] at h
  simp only [eq_iff_iff, iff_false]
  rintro rfl
  exact absurd h (by decide)

/-- A valid ISO date string is classified as a date: it contains no
percent sign, carries no currency glyph, and matches the ISO date
pattern. -/
theorem classify_iso (s : String) (h : isIsoDateString s = true) :
    classifyValue (.str s) = some "date" := by
  rw [isIsoDateString] at h
  cases hsh : isoShape? s.data with
  | none => rw [hsh] at h; exact absurd h (by simp)
  | some t =>
      obtain ⟨y, m, d⟩ := t
      obtain ⟨a, b, c, d4, e, f, g, h8, hcs, ha, hb, hc, hd4, he, hf, hg, hh8⟩ :=
        isoShape_shape hsh
      have hstr : (jsValToString (.str s)).data = s.data := rfl
      have htrim : trimJs s.data = s.data := by
        rw [hcs, trimJs]
        simp [List.dropWhile, digit_not_space ha, digit_not_space hh8]
      rw [classifyValue, hstr, htrim]
      have hpct : (s.data.contains '%' || isUnitNumber (.str s)) = false := by
        rw [hcs]
        simp only [Bool.or_eq_false_iff]
        constructor
        · simp only [List.contains_cons, List.contains_nil, Bool.or_eq_false_iff]
          refine ⟨?_, ?_, ?_, ?_, by decide, ?_, ?_, by decide, ?_, ?_, trivial⟩ <;>
            rw [beq_eq_false_iff_ne] <;>
            exact fun hx => digit_ne_percent (by assumption) hx.symm
        · rfl
      rw [if_neg (by rw [hpct]; simp)]
      have hcur : currencyGlyph s.data = false := by
        rw [hcs, currencyGlyph]
        simp [digit_not_currency ha, digit_not_currency hh8, List.getLast?]
      rw [if_neg (by rw [hcur]; simp)]
      have hser : isSerialRange (JsVal.str s) = false := rfl
      rw [if_neg (by rw [hser]; simp)]
      have hdp : matchesDatePattern s.data = true := by
        have hiso : matchIsoLike s.data = true := by
          rw [hcs, matchIsoLike]
          simp only [List.take, List.all_cons, List.all_nil, ha, hb, hc, hd4,
            Bool.and_self, Bool.true_and, List.drop]
          rw [show ((a :: b :: c :: d4 :: '-' :: e :: f :: '-' :: g :: h8 :: []).length) = 10
            from rfl]
          simp only [show (decide (4 ≤ 10)) = true from rfl, Bool.true_and]
          rw [runThen]
          simp [List.takeWhile, List.dropWhile, he, hf, hg, hh8, digit_not_dash he,
            digit_not_dash hf, digit_not_dash hg,
            show isDigitChar '-' = false from by decide]
        rw [matchesDatePattern, hiso]
        simp
      rw [if_pos hdp]

/-- Claim C9 (confirmed): the detector equals its specification
restatement - the first of date, percentage, currency, number whose
match ratio over the sampled non-empty values reaches sixty percent,
else text, with an empty sample giving text - and a non-empty sample
that is at least sixty percent valid ISO date strings is detected as
a date column. -/
theorem claim_C9 (values : List JsVal) :
    detectColumnType values = specDetectColumnType values ∧
    (sampleOf values ≠ [] →
      3 * (sampleOf values).length ≤
        5 * ((sampleOf values).filter (fun v => match v with
          | .str s => isIsoDateString s
          | _ => false)).length →
      detectColumnType values = "date") := by
  constructor
  · by_cases hs : sampleOf values = []
    · simp [detectColumnType, specDetectColumnType, hs]
    · simp only [detectColumnType, specDetectColumnType, if_neg hs]
      rw [countStep_counts]
      simp
  · intro hne hiso
    have hmono : ((sampleOf values).filter (fun v => match v with
        | .str s => isIsoDateString s
        | _ => false)).length ≤ matchCount (sampleOf values) "date" := by
      rw [matchCount, ← List.countP_eq_length_filter, ← List.countP_eq_length_filter]
      apply List.countP_mono_left
      intro v _ hp
      cases v with
      | str sv =>
          rw [decide_eq_true_eq]
          exact classify_iso sv hp
      | num n => exact absurd hp (by simp)
      | boolV b => exact absurd hp (by simp)
      | nullV => exact absurd hp (by simp)
    simp only [detectColumnType, if_neg hne]
    rw [countStep_counts]
    rw [if_pos (by simp only []; omega)]


/-- Witness for claim C9: two valid ISO dates out of three sampled
values pass the sixty-percent threshold. -/
theorem claim_C9_witness :
    sampleOf [JsVal.str "2023-03-15", JsVal.str "2023-04-01", JsVal.str "oops"] ≠ [] ∧
    detectColumnType [JsVal.str "2023-03-15", JsVal.str "2023-04-01", JsVal.str "oops"]
      = "date" :=
  ⟨by decide,
   (claim_C9 [JsVal.str "2023-03-15", JsVal.str "2023-04-01", JsVal.str "oops"]).2
     (by decide) (by decide)⟩

/-- Dropping a prefix never lengthens a list. -/
theorem dropWhile_length_le (p : Char → Bool) (l : List Char) :
    (l.dropWhile p).length ≤ l.length := by
  induction l with
  | nil => simp [List.dropWhile]
  | cons a l ih =>
      rw [List.dropWhile]
      split
      · exact le_trans ih (by simp)
      · simp

/-- The reference scanner does not depend on the fuel once the fuel
exceeds the input length, so the `length + 1` fuel of `findRefs` is
always enough. -/
theorem findRefsAux_fuel (fuel1 fuel2 : ℕ) (cs : List Char)
    (h1 : cs.length < fuel1) (h2 : cs.length < fuel2) :
    findRefsAux fuel1 cs = findRefsAux fuel2 cs := by
  induction fuel1 generalizing cs fuel2 with
  | zero => omega
  | succ f1 ih =>
      match fuel2, cs with
      | f2 + 1, [] => rfl
      | f2 + 1, c :: rest =>
          simp only [List.length_cons] at h1 h2
          have hd := dropWhile_length_le (fun c => decide (c ≠ '}')) rest
          show (if c = '{' then
              if rest.dropWhile (fun c => c ≠ '}') = [] then []
              else if rest.takeWhile (fun c => c ≠ '}') = [] then findRefsAux f1 rest
              else rest.takeWhile (fun c => c ≠ '}') ::
                findRefsAux f1 ((rest.dropWhile (fun c => c ≠ '}')).drop 1)
            else findRefsAux f1 rest) =
            (if c = '{' then
              if rest.dropWhile (fun c => c ≠ '}') = [] then []
              else if rest.takeWhile (fun c => c ≠ '}') = [] then findRefsAux f2 rest
              else rest.takeWhile (fun c => c ≠ '}') ::
                findRefsAux f2 ((rest.dropWhile (fun c => c ≠ '}')).drop 1)
            else findRefsAux f2 rest)
          split_ifs
          · rfl
          · exact ih f2 rest (by omega) (by omega)
          · rw [ih f2 ((rest.dropWhile (fun c => c ≠ '}')).drop 1)
              (by simp only [List.length_drop]; omega)
              (by simp only [List.length_drop]; omega)]
          · exact ih f2 rest (by omega) (by omega)

/-- Claim C1 (confirmed): arithmetic only ever runs on the
substituted expression after it passes the character whitelist -
digits, whitespace, `+ - * / ( ) .` - and when any other character
remains after substitution the result is `null`; the evaluator
factors exactly through that guarded expression. -/
theorem claim_C1 (formula : String) (row : Row) (cm : CMapping) :
    (∀ expr, arithInput formula row cm = some expr →
      expr.data ≠ [] ∧ ∀ c ∈ expr.data, isDigitChar c = true ∨ isJsSpace c = true ∨
        c = '+' ∨ c = '-' ∨ c = '*' ∨ c = '/' ∨ c = '(' ∨ c = ')' ∨ c = '.') ∧
    (∀ expr, rawSubstitution formula row cm = some expr →
      (∃ c ∈ expr.data, ¬(isDigitChar c = true ∨ isJsSpace c = true ∨
        c = '+' ∨ c = '-' ∨ c = '*' ∨ c = '/' ∨ c = '(' ∨ c = ')' ∨ c = '.')) →
      evaluateFormula formula row cm = none) ∧
    evaluateFormula formula row cm =
      (match arithInput formula row cm with
       | none => none
       | some expr =>
           match evalArith expr with
           | some (.fin q) => some (.fin q)
           | _ => none) := by
  have hwc : ∀ c : Char, whitelistChar c = true ↔
      (isDigitChar c = true ∨ isJsSpace c = true ∨ c = '+' ∨ c = '-' ∨ c = '*' ∨
        c = '/' ∨ c = '(' ∨ c = ')' ∨ c = '.') := by
    intro c
    rw [whitelistChar, decide_eq_true_eq]
  refine ⟨?_, ?_, ?_⟩
  · intro expr he
    rw [arithInput] at he
    cases hrs : rawSubstitution formula row cm with
    | none => rw [hrs] at he; exact absurd he (by simp)
    | some e0 =>
        rw [hrs] at he
        have he2 : (if whitelistOk e0 = true then some e0 else none) = some expr := he
        by_cases hwl : whitelistOk e0 = true
        · rw [if_pos hwl] at he2
          obtain rfl := Option.some.inj he2
          rw [whitelistOk, Bool.and_eq_true, decide_eq_true_eq, List.all_eq_true] at hwl
          exact ⟨hwl.1, fun c hc => (hwc c).mp (hwl.2 c hc)⟩
        · rw [if_neg hwl] at he2
          exact absurd he2 (by simp)
  · intro expr hrs hbad
    have hwl : ¬ whitelistOk expr = true := by
      rw [whitelistOk, Bool.and_eq_true, decide_eq_true_eq, List.all_eq_true]
      rintro ⟨-, hall⟩
      obtain ⟨c, hc, hnc⟩ := hbad
      exact hnc ((hwc c).mp (hall c hc))
    rw [evaluateFormula, hrs]
    show (if whitelistOk expr = true then
        (match evalArith expr with
         | some (JsNum.fin q) => some (JsNum.fin q)
         | _ => none)
      else none) = none
    rw [if_neg hwl]
  · rw [evaluateFormula, arithInput]
    cases hrs : rawSubstitution formula row cm with
    | none => rfl
    | some e0 =>
        show (if whitelistOk e0 = true then
            (match evalArith e0 with
             | some (JsNum.fin q) => some (JsNum.fin q)
             | _ => none)
          else none) =
          (match (if whitelistOk e0 = true then some e0 else none) with
           | none => none
           | some expr =>
               match evalArith expr with
               | some (JsNum.fin q) => some (JsNum.fin q)
               | _ => none)
        by_cases hwl : whitelistOk e0 = true
        · rw [if_pos hwl, if_pos hwl]
        · rw [if_neg hwl, if_neg hwl]

/-- Witness for claim C1: a letter expression is rejected. -/
theorem claim_C1_witness :
    rawSubstitution "abc" [] [] = some "abc" ∧
    evaluateFormula "abc" [] [] = none :=
  ⟨by with_unfolding_all rfl,
   (claim_C1 "abc" [] []).2.1 "abc" (by with_unfolding_all rfl)
     ⟨'a', by decide, by decide⟩⟩

/-- The substitution loop returns `null` exactly when some reference
of the list fails the gated resolution (missing, or non-numeric at
its authoritative stage). -/
theorem substituteRefs_none (row : Row) (cm : CMapping) (refs : List (List Char)) :
    ∀ expr, substituteRefs row cm refs expr = none ↔
      ∃ c ∈ refs, resolveRefChecked row cm (String.mk (trimJs c)) = none := by
  induction refs with
  | nil =>
      intro expr
      simp [substituteRefs]
  | cons content rest ih =>
      intro expr
      cases hres : resolveRef row cm (String.mk (trimJs content)) with
      | none =>
          have hstep : substituteRefs row cm (content :: rest) expr = none := by
            rw [substituteRefs, hres]
          rw [hstep]
          simp only [List.mem_cons]
          constructor
          · intro _
            exact ⟨content, Or.inl rfl, by rw [resolveRefChecked, hres]⟩
          · intro _
            trivial
      | some v =>
          by_cases hnan : v = JsNum.nan
          · subst hnan
            have hstep : substituteRefs row cm (content :: rest) expr = none := by
              rw [substituteRefs, hres]
            rw [hstep]
            simp only [List.mem_cons]
            constructor
            · intro _
              exact ⟨content, Or.inl rfl, by rw [resolveRefChecked, hres]; rfl⟩
            · intro _
              trivial
          · have hstep : substituteRefs row cm (content :: rest) expr =
                substituteRefs row cm rest
                  (replaceAll expr (String.mk ('{' :: content ++ ['}'])) (numToString v)) := by
              rw [substituteRefs, hres]
              cases v with
              | nan => exact absurd rfl hnan
              | fin q => rfl
              | inf b => rfl
            rw [hstep, ih]
            constructor
            · rintro ⟨c, hc, hcres⟩
              exact ⟨c, List.mem_cons_of_mem _ hc, hcres⟩
            · rintro ⟨c, hc, hcres⟩
              rcases List.mem_cons.mp hc with rfl | hc2
              · rw [resolveRefChecked, hres] at hcres
                have hcres2 : (if v = JsNum.nan then none else some v) =
                    (none : Option JsNum) := hcres
                rw [if_neg hnan] at hcres2
                exact absurd hcres2 (by simp)
              · exact ⟨c, hc2, hcres⟩

/-- Claim C4 (corrected): reference resolution is gated by key
presence - an existing exact key is authoritative even when its value
is not numeric, then the first case-insensitive key match, and the
mapping only when no key matches (see `claim_C4_counterexample`); the
formula is `null` exactly when the formula is empty or some reference
fails its authoritative stage. -/
theorem claim_C4 (row : Row) (cm : CMapping) :
    (∀ name, resolveRefChecked row cm name = specResolveAmended row cm name) ∧
    (∀ formula : String, rawSubstitution formula row cm = none ↔
      (formula = "" ∨ ∃ c ∈ findRefs formula.data,
        resolveRefChecked row cm (String.mk (trimJs c)) = none)) ∧
    (∀ formula : String, rawSubstitution formula row cm = none →
      evaluateFormula formula row cm = none) := by
  refine ⟨?_, ?_, ?_⟩
  · intro name
    rw [resolveRefChecked, resolveRef, specResolveAmended]
    by_cases h1 : rowHas row name = true
    · simp only [h1, if_true]
    · simp only [h1, if_false, Bool.false_eq_true]
      cases hf : (row.map Prod.fst).find? (fun k => toLowerStr k = toLowerStr name) with
      | some k => simp only []
      | none =>
          cases hg : cm.find? (fun e => entryMatches e.1 e.2 name) with
          | some p =>
              obtain ⟨f, entry⟩ := p
              by_cases hh : rowHas row (actualColumnOf entry name) = true
              · simp only [hh, if_true]
              · simp only [hh, if_false, Bool.false_eq_true]
          | none => simp only []
  · intro formula
    rw [rawSubstitution]
    by_cases hform : formula = ""
    · rw [if_pos hform]
      simp [hform]
    · rw [if_neg hform]
      rw [substituteRefs_none]
      constructor
      · intro h
        exact Or.inr h
      · rintro (h | h)
        · exact absurd h hform
        · exact h
  · intro formula hnone
    rw [evaluateFormula, hnone]

/-- Claim C4 as stated is false: with an exact key whose value is not
numeric, the mapping stage would yield the number `5`, yet the
formula evaluates to `null` because stage gating never reaches it. -/
theorem claim_C4_counterexample :
    evaluateFormula "{a}" [("a", JsVal.str "xyz"), ("b", JsVal.num (.fin 5))]
      [("a", some ⟨some "b", none⟩)] = none ∧
    entryMatches "a" (some ⟨some "b", none⟩) "a" = true ∧
    parseFloatVal (rowGet [("a", JsVal.str "xyz"), ("b", JsVal.num (.fin 5))]
      (actualColumnOf (some ⟨some "b", none⟩) "a")) = .fin 5 := by
  refine ⟨?_, by with_unfolding_all rfl, by with_unfolding_all rfl⟩
  with_unfolding_all rfl

/-- Witness for the amended claim C4 at concrete inputs. -/
theorem claim_C4_witness :
    rawSubstitution "{missing}" [("a", JsVal.num (.fin 2))] [] = none ∧
    evaluateFormula "{missing}" [("a", JsVal.num (.fin 2))] [] = none ∧
    resolveRefChecked [("a", JsVal.num (.fin 2))] [] "a" =
      specResolveAmended [("a", JsVal.num (.fin 2))] [] "a" :=
  ⟨by with_unfolding_all rfl,
   (claim_C4 [("a", JsVal.num (.fin 2))] []).2.2 "{missing}" (by with_unfolding_all rfl),
   (claim_C4 [("a", JsVal.num (.fin 2))] []).1 "a"⟩
